import Mathlib

/-!
Verification development for the ExamScoreAnalyzer core components.

The Python sources (src/utils/ranking_system.py, src/utils/analyzer.py,
src/utils/data_processor.py, src/utils/historical_analyzer.py) are embedded
shallowly: scores are rationals (`ℚ`), Python dicts become association lists
that preserve insertion order, NaN-able inputs become `Option ℚ`, and code
that raises becomes `Except String`.
-/

namespace ExamScore

section SortUtil

variable {α : Type}

/-- Insert `x` into a list sorted descending by `key`, placing it before the
first element whose key is not larger.  Folding this over a list from the
right reproduces Python's stable `list.sort(key=..., reverse=True)`:
elements with equal keys keep their original relative order. -/
def insertDescBy (key : α → ℚ) (x : α) : List α → List α
  | [] => [x]
  | y :: ys => if key x ≥ key y then x :: y :: ys else y :: insertDescBy key x ys

/-- Stable descending sort by `key` (Python `sort(key=..., reverse=True)`). -/
def sortDescBy (key : α → ℚ) : List α → List α
  | [] => []
  | x :: xs => insertDescBy key x (sortDescBy key xs)

theorem mem_insertDescBy (key : α → ℚ) (x z : α) (l : List α) :
    z ∈ insertDescBy key x l ↔ z = x ∨ z ∈ l := by
  induction l with
  | nil => simp [insertDescBy]
  | cons y ys ih =>
    by_cases h : key x ≥ key y
    · simp [insertDescBy, h]
    · simp [insertDescBy, h, ih]
      tauto

theorem perm_insertDescBy (key : α → ℚ) (x : α) (l : List α) :
    List.Perm (insertDescBy key x l) (x :: l) := by
  induction l with
  | nil => simp [insertDescBy]
  | cons y ys ih =>
    by_cases h : key x ≥ key y
    · simp [insertDescBy, h]
    · simp only [insertDescBy, if_neg h]
      exact (ih.cons y).trans (List.Perm.swap x y ys)

theorem perm_sortDescBy (key : α → ℚ) (l : List α) :
    List.Perm (sortDescBy key l) l := by
  induction l with
  | nil => simp [sortDescBy]
  | cons x xs ih =>
    exact (perm_insertDescBy key x (sortDescBy key xs)).trans (ih.cons x)

theorem pairwise_insertDescBy (key : α → ℚ) (x : α) (l : List α)
    (h : List.Pairwise (fun a b => key a ≥ key b) l) :
    List.Pairwise (fun a b => key a ≥ key b) (insertDescBy key x l) := by
  induction l with
  | nil => simp [insertDescBy]
  | cons y ys ih =>
    rcases List.pairwise_cons.mp h with ⟨hy, hys⟩
    by_cases hxy : key x ≥ key y
    · simp only [insertDescBy, if_pos hxy]
      refine List.pairwise_cons.mpr ⟨?_, h⟩
      intro z hz
      rcases List.mem_cons.mp hz with rfl | hz
      · exact hxy
      · exact le_trans (hy z hz) hxy
    · simp only [insertDescBy, if_neg hxy]
      refine List.pairwise_cons.mpr ⟨?_, ih hys⟩
      intro z hz
      rcases (mem_insertDescBy key x z ys).mp hz with rfl | hz
      · exact le_of_not_ge hxy
      · exact hy z hz

theorem pairwise_sortDescBy (key : α → ℚ) (l : List α) :
    List.Pairwise (fun a b => key a ≥ key b) (sortDescBy key l) := by
  induction l with
  | nil => simp [sortDescBy]
  | cons x xs ih => exact pairwise_insertDescBy key x _ ih

theorem length_sortDescBy (key : α → ℚ) (l : List α) :
    (sortDescBy key l).length = l.length :=
  (perm_sortDescBy key l).length_eq

end SortUtil

/-! ### src/utils/ranking_system.py — class RankingSystem -/

namespace RankingSystem

/-- One element of the list built in `calculate_rankings` before sorting:
`{'name': ..., 'score': ..., 'grade': ...}`. -/
structure Student where
  name : String
  score : ℚ
  grade : String
  deriving DecidableEq, Inhabited

/-- One element of the returned rankings list:
`{'rank': ..., 'student_name': ..., 'score': ..., 'grade': ..., 'percentage': ...}`. -/
structure RankEntry where
  rank : Nat
  student_name : String
  score : ℚ
  grade : String
  percentage : ℚ
  deriving DecidableEq, Inhabited

/-- `RankingSystem._get_letter_grade`: percentage ladder with inclusive lower
bounds.  Division on `ℚ` is total (Python would raise on `max_marks = 0`;
callers use the default 100). -/
def get_letter_grade (mark : ℚ) (max_marks : ℚ) : String :=
  let percentage := mark / max_marks * 100
  if percentage ≥ 95 then "A+"
  else if percentage ≥ 85 then "A"
  else if percentage ≥ 75 then "B+"
  else if percentage ≥ 65 then "B"
  else if percentage ≥ 55 then "C+"
  else if percentage ≥ 45 then "C"
  else if percentage ≥ 35 then "D"
  else "F"

/-- Name selection for student `i` (0-based): `student_names[i]` when the list
is given, long enough and the entry is non-empty (Python truthiness), else
`"Student {i+1}"`. -/
def studentName (student_names : Option (List String)) (i : Nat) : String :=
  match student_names with
  | none => "Student " ++ toString (i + 1)
  | some names =>
    let n := names.getD i ""
    if n = "" then "Student " ++ toString (i + 1) else n

/-- The rank-assignment loop of `calculate_rankings`: `i` is the 0-based
position in the sorted list, `cur` the running `current_rank`, `prev` the
previous student's score.  `current_rank` is reset to `i + 1` whenever the
previous score differs. -/
def rankLoop (max_marks : ℚ) : List Student → Nat → Nat → ℚ → List RankEntry
  | [], _, _, _ => []
  | s :: rest, i, cur, prev =>
    let r := if i > 0 ∧ prev ≠ s.score then i + 1 else cur
    { rank := r, student_name := s.name, score := s.score, grade := s.grade,
      percentage := s.score / max_marks * 100 } ::
      rankLoop max_marks rest (i + 1) r s.score

/-- The student-building loop of `calculate_rankings`: one `Student` per mark,
in input order. -/
def buildStudents (marks : List ℚ) (student_names : Option (List String))
    (max_marks : ℚ) : List Student :=
  (List.range marks.length).map (fun i =>
    { name := studentName student_names i, score := marks.getD i 0,
      grade := get_letter_grade (marks.getD i 0) max_marks : Student })

/-- `RankingSystem.calculate_rankings`.  Empty `marks` returns `[]` (the code
`if not marks: return []`), it does not raise.  The Python stable descending
sort is `sortDescBy`. -/
def calculate_rankings (marks : List ℚ) (student_names : Option (List String))
    (max_marks : ℚ) : List RankEntry :=
  if marks = [] then []
  else rankLoop max_marks
    (sortDescBy (fun s => s.score) (buildStudents marks student_names max_marks)) 0 1 0

theorem rankLoop_length (m : ℚ) (l : List Student) (i cur : Nat) (prev : ℚ) :
    (rankLoop m l i cur prev).length = l.length := by
  induction l generalizing i cur prev with
  | nil => rfl
  | cons s rest ih => simp [rankLoop, ih]

theorem rankLoop_map_score (m : ℚ) (l : List Student) (i cur : Nat) (prev : ℚ) :
    (rankLoop m l i cur prev).map (fun e => e.score) = l.map (fun s => s.score) := by
  induction l generalizing i cur prev with
  | nil => rfl
  | cons s rest ih => simp [rankLoop, ih]

theorem rankLoop_getD_score (m : ℚ) (l : List Student) (i cur : Nat) (prev : ℚ)
    (t : Nat) (h : t < l.length) :
    ((rankLoop m l i cur prev).getD t default).score = (l.getD t default).score := by
  induction l generalizing i cur prev t with
  | nil => simp at h
  | cons s rest ih =>
    cases t with
    | zero => simp [rankLoop]
    | succ t =>
      simp only [rankLoop, List.getD_cons_succ]
      exact ih _ _ _ t (by simpa using h)

theorem rankLoop_head_rank (m : ℚ) (s : Student) (rest : List Student)
    (cur : Nat) (prev : ℚ) :
    ((rankLoop m (s :: rest) 0 cur prev).getD 0 default).rank = cur := by
  simp [rankLoop]

/-- The rank-assignment invariant of the loop in `calculate_rankings`: at
position `t + 1` the entry receives the previous entry's rank when the scores
tie, and otherwise its 1-based global position `i + t + 2`. -/
theorem rankLoop_adj (m : ℚ) (l : List Student) (i cur : Nat) (prev : ℚ)
    (t : Nat) (h : t + 1 < l.length) :
    ((rankLoop m l i cur prev).getD (t + 1) default).rank =
      if (l.getD (t + 1) default).score = (l.getD t default).score
      then ((rankLoop m l i cur prev).getD t default).rank
      else i + t + 2 := by
  induction t generalizing l i cur prev with
  | zero =>
    match l, h with
    | s0 :: s1 :: rest, _ =>
      simp only [rankLoop, List.getD_cons_succ, List.getD_cons_zero]
      by_cases heq : s1.score = s0.score
      · simp [heq]
      · simp [heq, Ne.symm heq]
  | succ t ih =>
    match l, h with
    | s :: rest, h =>
      have h' : t + 1 < rest.length := by simpa using h
      simp only [rankLoop, List.getD_cons_succ]
      rw [ih rest (i + 1) _ _ h']
      by_cases heq : (rest.getD (t + 1) default).score = (rest.getD t default).score
      · rw [if_pos heq, if_pos heq]
      · rw [if_neg heq, if_neg heq]
        omega

/-- Evaluating each `getD i 0` over the index range rebuilds the list. -/
theorem map_getD_range (l : List ℚ) :
    (List.range l.length).map (fun i => l.getD i 0) = l := by
  induction l with
  | nil => rfl
  | cons x xs ih =>
    rw [List.length_cons, List.range_succ_eq_map, List.map_cons, List.map_map]
    have hc : ((fun i => (x :: xs).getD i 0) ∘ Nat.succ) = fun i => xs.getD i 0 := by
      funext i
      rfl
    rw [hc, ih]
    rfl

/-- Score-wise, `buildStudents` reproduces the input marks in order. -/
theorem buildStudents_map_score (marks : List ℚ) (names : Option (List String))
    (maxm : ℚ) :
    (buildStudents marks names maxm).map (fun s => s.score) = marks := by
  unfold buildStudents
  rw [List.map_map]
  exact map_getD_range marks

end RankingSystem

/-- C1: `RankingSystem.calculate_rankings` implements competition ranking:
the output is sorted descending by score and is (score-wise) a permutation of
the input, the top entry has rank 1, an entry tying the previous entry's score
shares its rank, and an entry breaking a tie gets its 1-based sorted position;
for scores `[90, 90, 80]` the ranks are `[1, 1, 3]`. -/
theorem claim1_competition_ranking :
    (∀ (marks : List ℚ) (names : Option (List String)) (maxm : ℚ),
      List.Pairwise (fun a b => a ≥ b)
        ((RankingSystem.calculate_rankings marks names maxm).map (fun e => e.score)) ∧
      List.Perm
        ((RankingSystem.calculate_rankings marks names maxm).map (fun e => e.score)) marks ∧
      (0 < (RankingSystem.calculate_rankings marks names maxm).length →
        ((RankingSystem.calculate_rankings marks names maxm).getD 0 default).rank = 1) ∧
      (∀ t, t + 1 < (RankingSystem.calculate_rankings marks names maxm).length →
        ((RankingSystem.calculate_rankings marks names maxm).getD (t + 1) default).rank =
          if ((RankingSystem.calculate_rankings marks names maxm).getD (t + 1) default).score =
              ((RankingSystem.calculate_rankings marks names maxm).getD t default).score
          then ((RankingSystem.calculate_rankings marks names maxm).getD t default).rank
          else t + 2)) ∧
    (RankingSystem.calculate_rankings [90, 90, 80] none 100).map (fun e => e.rank) =
      [1, 1, 3] := by
  constructor
  · intro marks names maxm
    by_cases hm : marks = []
    · subst hm
      simp [RankingSystem.calculate_rankings]
    · unfold RankingSystem.calculate_rankings
      rw [if_neg hm]
      refine ⟨?_, ?_, ?_, ?_⟩
      · rw [RankingSystem.rankLoop_map_score]
        exact List.pairwise_map.mpr (pairwise_sortDescBy _ _)
      · rw [RankingSystem.rankLoop_map_score]
        refine List.Perm.trans ((perm_sortDescBy _ _).map _) ?_
        rw [RankingSystem.buildStudents_map_score]
      · intro hlen
        rw [RankingSystem.rankLoop_length] at hlen
        cases hs : sortDescBy (fun s => s.score)
            (RankingSystem.buildStudents marks names maxm) with
        | nil => rw [hs] at hlen; simp at hlen
        | cons s rest =>
          exact RankingSystem.rankLoop_head_rank maxm s rest 1 0
      · intro t ht
        rw [RankingSystem.rankLoop_length] at ht
        rw [RankingSystem.rankLoop_adj _ _ _ _ _ _ ht,
          RankingSystem.rankLoop_getD_score _ _ _ _ _ _ ht,
          RankingSystem.rankLoop_getD_score _ _ _ _ _ t (by omega)]
        simp
  · decide

/-- Witness for C1 at concrete inputs: scores `[50, 70]` sort to `[70, 50]`,
the top rank is 1 and position 1 gets rank 2. -/
theorem claim1_witness :
    ((RankingSystem.calculate_rankings [50, 70] none 100).getD 0 default).rank = 1 ∧
    ((RankingSystem.calculate_rankings [50, 70] none 100).getD 1 default).rank = 2 := by
  refine ⟨(claim1_competition_ranking.1 [50, 70] none 100).2.2.1 (by decide), ?_⟩
  have h := (claim1_competition_ranking.1 [50, 70] none 100).2.2.2 0 (by decide)
  rw [h]
  decide

/-! ### src/utils/analyzer.py — class ExamAnalyzer -/

namespace ExamAnalyzer

/-- Ascending insertion used to model `np.sort` on values. -/
def insertAsc (x : ℚ) : List ℚ → List ℚ
  | [] => [x]
  | y :: ys => if x ≤ y then x :: y :: ys else y :: insertAsc x ys

/-- Ascending value sort on rationals (`np.sort`). -/
def sortAsc : List ℚ → List ℚ
  | [] => []
  | x :: xs => insertAsc x (sortAsc xs)

theorem mem_insertAsc (x z : ℚ) (l : List ℚ) :
    z ∈ insertAsc x l ↔ z = x ∨ z ∈ l := by
  induction l with
  | nil => simp [insertAsc]
  | cons y ys ih =>
    by_cases h : x ≤ y
    · simp [insertAsc, h]
    · simp [insertAsc, h, ih]
      tauto

theorem perm_insertAsc (x : ℚ) (l : List ℚ) :
    List.Perm (insertAsc x l) (x :: l) := by
  induction l with
  | nil => simp [insertAsc]
  | cons y ys ih =>
    by_cases h : x ≤ y
    · simp [insertAsc, h]
    · simp only [insertAsc, if_neg h]
      exact (ih.cons y).trans (List.Perm.swap x y ys)

theorem perm_sortAsc (l : List ℚ) : List.Perm (sortAsc l) l := by
  induction l with
  | nil => simp [sortAsc]
  | cons x xs ih => exact (perm_insertAsc x (sortAsc xs)).trans (ih.cons x)

theorem length_sortAsc (l : List ℚ) : (sortAsc l).length = l.length :=
  (perm_sortAsc l).length_eq

theorem pairwise_insertAsc (x : ℚ) (l : List ℚ)
    (h : List.Pairwise (fun a b => a ≤ b) l) :
    List.Pairwise (fun a b => a ≤ b) (insertAsc x l) := by
  induction l with
  | nil => simp [insertAsc]
  | cons y ys ih =>
    rcases List.pairwise_cons.mp h with ⟨hy, hys⟩
    by_cases hxy : x ≤ y
    · simp only [insertAsc, if_pos hxy]
      refine List.pairwise_cons.mpr ⟨?_, h⟩
      intro z hz
      rcases List.mem_cons.mp hz with rfl | hz
      · exact hxy
      · exact le_trans hxy (hy z hz)
    · simp only [insertAsc, if_neg hxy]
      refine List.pairwise_cons.mpr ⟨?_, ih hys⟩
      intro z hz
      rcases (mem_insertAsc x z ys).mp hz with rfl | hz
      · exact le_of_not_le hxy
      · exact hy z hz

theorem pairwise_sortAsc (l : List ℚ) :
    List.Pairwise (fun a b => a ≤ b) (sortAsc l) := by
  induction l with
  | nil => simp [sortAsc]
  | cons x xs ih => exact pairwise_insertAsc x _ ih

/-- `np.min`: fold of `min` over the array. -/
def listMin : List ℚ → ℚ
  | [] => 0
  | x :: xs => xs.foldl min x

/-- `np.max`: fold of `max` over the array. -/
def listMax : List ℚ → ℚ
  | [] => 0
  | x :: xs => xs.foldl max x

/-- `np.mean`: sum divided by length. -/
def mean (l : List ℚ) : ℚ := l.sum / (l.length : ℚ)

/-- The k-th central moment (denominator `n`), the building block of
`np.var`, `scipy.stats.skew` and `scipy.stats.kurtosis`. -/
def centralMoment (l : List ℚ) (k : Nat) : ℚ :=
  (l.map (fun x => (x - mean l) ^ k)).sum / (l.length : ℚ)

/-- Linear interpolation between order statistics at fractional index `pos`,
the kernel of `np.percentile`'s default (linear) method. -/
def interpAt (s : List ℚ) (pos : ℚ) : ℚ :=
  s.getD (Int.floor pos).toNat 0 +
    (pos - ((Int.floor pos).toNat : ℚ)) *
      (s.getD ((Int.floor pos).toNat + 1) (s.getD (Int.floor pos).toNat 0) -
        s.getD (Int.floor pos).toNat 0)

/-- `np.percentile(xs, p)` with the default linear-interpolation method:
index `p · (n − 1) / 100` into the ascending order statistics. -/
def percentile (xs : List ℚ) (p : ℚ) : ℚ :=
  interpAt (sortAsc xs) (p * ((xs.length : ℚ) - 1) / 100)

/-- `scipy.stats.mode` returns the smallest value attaining the maximal
multiplicity; scanning the ascending sort with strict improvement picks
exactly that value. -/
def modeCandidate (l : List ℚ) : ℚ :=
  (sortAsc l).foldl (fun best x => if l.count x > l.count best then x else best)
    ((sortAsc l).getD 0 0)

/-- `ExamAnalyzer._calculate_mode`: the mode only counts when its
multiplicity is at least 2, otherwise `None`. -/
def calculate_mode (l : List ℚ) : Option ℚ :=
  if l.count (modeCandidate l) > 1 then some (modeCandidate l) else none

/-- The analysis results dict of `ExamAnalyzer.analyze` (plus the
`_calculate_percentiles` / `_detect_outliers` updates).  `std_dev` and
`skewness` involve square roots and are irrational in general; the rational
embedding carries `variance` (the square of `std_dev`) and models the
skewness choice through the standalone `skewnessSqBiased` below. -/
structure Stats where
  count : Nat
  mean : ℚ
  median : ℚ
  mode : Option ℚ
  variance : ℚ
  min : ℚ
  max : ℚ
  range : ℚ
  q1 : ℚ
  q3 : ℚ
  iqr : ℚ
  kurtosis : ℚ
  marks : List ℚ
  percentiles : List (Nat × ℚ)
  outliers : List ℚ
  outlier_count : Nat
  outlier_percentage : ℚ
  lower_bound : ℚ
  upper_bound : ℚ
  deriving DecidableEq, Inhabited

/-- `lower_bound` of `ExamAnalyzer._detect_outliers`:
`q1 - 1.5 * iqr` with `iqr = q3 - q1`. -/
def lowerBound (clean : List ℚ) : ℚ :=
  percentile clean 25 - 3/2 * (percentile clean 75 - percentile clean 25)

/-- `upper_bound` of `ExamAnalyzer._detect_outliers`: `q3 + 1.5 * iqr`. -/
def upperBound (clean : List ℚ) : ℚ :=
  percentile clean 75 + 3/2 * (percentile clean 75 - percentile clean 25)

/-- The outlier selection `marks[(marks < lower_bound) | (marks > upper_bound)]`
of `ExamAnalyzer._detect_outliers`: strict inequalities on both sides. -/
def outlierList (clean : List ℚ) : List ℚ :=
  clean.filter (fun x => decide (x < lowerBound clean ∨ x > upperBound clean))

/-- The result construction of `ExamAnalyzer.analyze` on the cleaned marks
(`marks_clean`, guaranteed non-empty by the caller).  `kurtosis` is
`scipy.stats.kurtosis` with its defaults `fisher=True, bias=True`:
the biased population excess kurtosis `m4 / m2² − 3`. -/
def analyzeStats (clean : List ℚ) : Stats :=
  { count := clean.length
    mean := mean clean
    median := percentile clean 50
    mode := calculate_mode clean
    variance := if clean.length > 1 then
        (clean.map (fun x => (x - mean clean) ^ 2)).sum / ((clean.length : ℚ) - 1)
      else 0
    min := listMin clean
    max := listMax clean
    range := listMax clean - listMin clean
    q1 := percentile clean 25
    q3 := percentile clean 75
    iqr := percentile clean 75 - percentile clean 25
    kurtosis := centralMoment clean 4 / (centralMoment clean 2) ^ 2 - 3
    marks := clean
    percentiles := [10, 20, 30, 40, 50, 60, 70, 80, 90, 95, 99].map
      (fun p => (p, percentile clean (p : ℚ)))
    outliers := outlierList clean
    outlier_count := (outlierList clean).length
    outlier_percentage := ((outlierList clean).length : ℚ) / (clean.length : ℚ) * 100
    lower_bound := lowerBound clean
    upper_bound := upperBound clean }

/-- `ExamAnalyzer.analyze`: NaN entries are `none`; an empty input raises
`ValueError("No marks provided for analysis")` and an all-NaN input raises
`ValueError("No valid marks found")`, both embedded as `Except.error`. -/
def analyze (marks : List (Option ℚ)) : Except String Stats :=
  if marks = [] then Except.error "No marks provided for analysis"
  else if marks.filterMap id = [] then Except.error "No valid marks found"
  else Except.ok (analyzeStats (marks.filterMap id))

/-- The grade ladder inlined in `ExamAnalyzer.calculate_grade_distribution`
(same inclusive lower bounds as `RankingSystem._get_letter_grade`). -/
def gradeBucket (percentage : ℚ) : String :=
  if percentage ≥ 95 then "A+"
  else if percentage ≥ 85 then "A"
  else if percentage ≥ 75 then "B+"
  else if percentage ≥ 65 then "B"
  else if percentage ≥ 55 then "C+"
  else if percentage ≥ 45 then "C"
  else if percentage ≥ 35 then "D"
  else "F"

/-- Increment the count stored under grade `g` (Python `grades[g] += 1`). -/
def bump (g : String) : List (String × Nat) → List (String × Nat)
  | [] => []
  | (k, c) :: rest => if k = g then (k, c + 1) :: rest else (k, c) :: bump g rest

/-- The `grades` dict of `calculate_grade_distribution`: the fixed 8-key
dict accumulated over the marks. -/
def gradesOf (marks : List ℚ) (max_marks : ℚ) : List (String × Nat) :=
  marks.foldl
    (fun acc mark => bump (gradeBucket (mark / max_marks * 100)) acc)
    ([("A+", 0), ("A", 0), ("B+", 0), ("B", 0), ("C+", 0), ("C", 0), ("D", 0), ("F", 0)])

/-- The `grade_percentages` comprehension: each count divided by
`len(marks)`. -/
def percentagesOf (marks : List ℚ) (max_marks : ℚ) : List (String × ℚ) :=
  (gradesOf marks max_marks).map
    (fun kc => (kc.1, (kc.2 : ℚ) / (marks.length : ℚ) * 100))

/-- `ExamAnalyzer.calculate_grade_distribution`: counts are accumulated over
the fixed 8-key dict first, then each count is divided by `len(marks)`; on
an empty `marks` list that division raises `ZeroDivisionError` (there is no
empty-input guard in this function), embedded as `Except.error`. -/
def calculate_grade_distribution (marks : List ℚ) (max_marks : ℚ) :
    Except String (List (String × Nat) × List (String × ℚ)) :=
  if marks.length = 0 then Except.error "ZeroDivisionError: division by zero"
  else Except.ok (gradesOf marks max_marks, percentagesOf marks max_marks)

theorem getD_eq_getElem_of_lt {α : Type} (l : List α) (d : α) (n : Nat)
    (h : n < l.length) : l.getD n d = l[n] := by
  simp [List.getD, List.getElem?_eq_getElem h]

theorem getD_default_of_le {α : Type} (l : List α) (d : α) (n : Nat)
    (h : l.length ≤ n) : l.getD n d = d := by
  simp [List.getD, List.getElem?_eq_none h]

theorem sorted_getD_mono (l : List ℚ) (hl : List.Pairwise (fun a b => a ≤ b) l)
    (i j : Nat) (hij : i ≤ j) (hj : j < l.length) :
    l.getD i 0 ≤ l.getD j 0 := by
  rcases Nat.eq_or_lt_of_le hij with rfl | hlt
  · exact le_refl _
  · have hi : i < l.length := lt_trans hlt hj
    rw [getD_eq_getElem_of_lt _ _ _ hi, getD_eq_getElem_of_lt _ _ _ hj]
    exact List.pairwise_iff_getElem.mp hl i j hi hj hlt

/-- In a sorted list the interpolation neighbour never decreases (out of
range it degenerates to the current value). -/
theorem getD_next_ge (s : List ℚ) (hs : List.Pairwise (fun a b => a ≤ b) s)
    (i : Nat) : s.getD i 0 ≤ s.getD (i + 1) (s.getD i 0) := by
  by_cases h : i + 1 < s.length
  · rw [getD_eq_getElem_of_lt _ _ (i + 1) h, getD_eq_getElem_of_lt _ _ i (by omega)]
    exact List.pairwise_iff_getElem.mp hs i (i + 1) (by omega) h (by omega)
  · rw [getD_default_of_le _ _ (i + 1) (by omega)]

theorem floor_toNat_cast_le (x : ℚ) (hx : 0 ≤ x) :
    (((Int.floor x).toNat : ℚ)) ≤ x := by
  have h0 : (0 : ℤ) ≤ Int.floor x := Int.floor_nonneg.mpr hx
  have : (((Int.floor x).toNat : ℤ) : ℚ) = ((Int.floor x : ℤ) : ℚ) := by
    rw [Int.toNat_of_nonneg h0]
  rw [show (((Int.floor x).toNat : ℚ)) = (((Int.floor x).toNat : ℤ) : ℚ) by push_cast; ring,
    this]
  exact Int.floor_le x

theorem lt_floor_toNat_add_one (x : ℚ) (hx : 0 ≤ x) :
    x < (((Int.floor x).toNat : ℚ)) + 1 := by
  have h0 : (0 : ℤ) ≤ Int.floor x := Int.floor_nonneg.mpr hx
  have hc : (((Int.floor x).toNat : ℚ)) = ((Int.floor x : ℤ) : ℚ) := by
    rw [show (((Int.floor x).toNat : ℚ)) = (((Int.floor x).toNat : ℤ) : ℚ) by push_cast; ring,
      Int.toNat_of_nonneg h0]
  rw [hc]
  exact Int.lt_floor_add_one x

/-- The interpolated value lies between its two neighbouring order
statistics. -/
theorem interpAt_between (s : List ℚ) (hs : List.Pairwise (fun a b => a ≤ b) s)
    (x : ℚ) (hx0 : 0 ≤ x) :
    s.getD (Int.floor x).toNat 0 ≤ interpAt s x ∧
      interpAt s x ≤ s.getD ((Int.floor x).toNat + 1) (s.getD (Int.floor x).toNat 0) := by
  have hf0 : (0 : ℚ) ≤ x - ((Int.floor x).toNat : ℚ) := by
    have := floor_toNat_cast_le x hx0
    linarith
  have hf1 : x - ((Int.floor x).toNat : ℚ) ≤ 1 := by
    have := lt_floor_toNat_add_one x hx0
    linarith
  have hnext := getD_next_ge s hs (Int.floor x).toNat
  unfold interpAt
  constructor
  · nlinarith
  · nlinarith

/-- Monotonicity of linear interpolation over a sorted list. -/
theorem interpAt_mono (s : List ℚ) (hs : List.Pairwise (fun a b => a ≤ b) s)
    (x y : ℚ) (hx0 : 0 ≤ x) (hxy : x ≤ y) (hy : y ≤ (s.length : ℚ) - 1) :
    interpAt s x ≤ interpAt s y := by
  have hy0 : 0 ≤ y := le_trans hx0 hxy
  have hij : (Int.floor x).toNat ≤ (Int.floor y).toNat :=
    Int.toNat_le_toNat (Int.floor_le_floor hxy)
  have hn1 : (1 : ℚ) ≤ (s.length : ℚ) := by linarith
  have hn : 1 ≤ s.length := by exact_mod_cast hn1
  have hjn : (Int.floor y).toNat < s.length := by
    have hfl : Int.floor y ≤ (s.length : ℤ) - 1 := by
      have : ((((s.length : ℤ) - 1 : ℤ)) : ℚ) = (s.length : ℚ) - 1 := by push_cast; ring
      have h2 : Int.floor y ≤ Int.floor ((((s.length : ℤ) - 1 : ℤ)) : ℚ) :=
        Int.floor_le_floor (by rw [this]; exact hy)
      rwa [Int.floor_intCast] at h2
    omega
  rcases Nat.eq_or_lt_of_le hij with heq | hlt
  · have hf0 : (0 : ℚ) ≤ x - ((Int.floor x).toNat : ℚ) := by
      have := floor_toNat_cast_le x hx0
      linarith
    have hnext := getD_next_ge s hs (Int.floor x).toNat
    unfold interpAt
    rw [← heq]
    nlinarith
  · have h1 : interpAt s x ≤
        s.getD ((Int.floor x).toNat + 1) (s.getD (Int.floor x).toNat 0) :=
      (interpAt_between s hs x hx0).2
    have hin : (Int.floor x).toNat + 1 < s.length := by omega
    have h1' : s.getD ((Int.floor x).toNat + 1) (s.getD (Int.floor x).toNat 0) =
        s.getD ((Int.floor x).toNat + 1) 0 := by
      rw [getD_eq_getElem_of_lt _ _ _ hin, getD_eq_getElem_of_lt _ _ _ hin]
    have h2 : s.getD ((Int.floor x).toNat + 1) 0 ≤ s.getD (Int.floor y).toNat 0 :=
      sorted_getD_mono s hs _ _ (by omega) hjn
    have h3 : s.getD (Int.floor y).toNat 0 ≤ interpAt s y :=
      (interpAt_between s hs y hy0).1
    calc interpAt s x ≤ _ := h1
      _ = _ := h1'
      _ ≤ _ := h2
      _ ≤ _ := h3

/-- `np.percentile` (linear method) is monotone in the percentile level. -/
theorem percentile_mono (xs : List ℚ) (hxs : xs ≠ []) (p q : ℚ)
    (hp : 0 ≤ p) (hpq : p ≤ q) (hq : q ≤ 100) :
    percentile xs p ≤ percentile xs q := by
  have hn : 1 ≤ xs.length := List.length_pos.mpr hxs
  have hn1 : (0 : ℚ) ≤ (xs.length : ℚ) - 1 := by
    have : (1 : ℚ) ≤ (xs.length : ℚ) := by exact_mod_cast hn
    linarith
  unfold percentile
  apply interpAt_mono _ (pairwise_sortAsc xs)
  · have := mul_nonneg hp hn1
    linarith
  · have := mul_le_mul_of_nonneg_right hpq hn1
    linarith
  · rw [length_sortAsc]
    have := mul_le_mul_of_nonneg_right hq hn1
    linarith

theorem foldl_min_le_init (l : List ℚ) (init : ℚ) : l.foldl min init ≤ init := by
  induction l generalizing init with
  | nil => exact le_refl _
  | cons y ys ih =>
    exact le_trans (ih (min init y)) (min_le_left init y)

theorem foldl_min_le_mem (l : List ℚ) (init : ℚ) :
    ∀ x ∈ l, l.foldl min init ≤ x := by
  induction l generalizing init with
  | nil => intro x hx; simp at hx
  | cons y ys ih =>
    intro x hx
    rcases List.mem_cons.mp hx with rfl | hx
    · exact le_trans (foldl_min_le_init ys (min init x)) (min_le_right init x)
    · exact ih (min init y) x hx

theorem foldl_max_init_le (l : List ℚ) (init : ℚ) : init ≤ l.foldl max init := by
  induction l generalizing init with
  | nil => exact le_refl _
  | cons y ys ih =>
    exact le_trans (le_max_left init y) (ih (max init y))

theorem foldl_max_mem_le (l : List ℚ) (init : ℚ) :
    ∀ x ∈ l, x ≤ l.foldl max init := by
  induction l generalizing init with
  | nil => intro x hx; simp at hx
  | cons y ys ih =>
    intro x hx
    rcases List.mem_cons.mp hx with rfl | hx
    · exact le_trans (le_max_right init x) (foldl_max_init_le ys (max init x))
    · exact ih (max init y) x hx

theorem listMin_le_mem (l : List ℚ) : ∀ x ∈ l, listMin l ≤ x := by
  cases l with
  | nil => intro x hx; simp at hx
  | cons y ys =>
    intro x hx
    rcases List.mem_cons.mp hx with rfl | hx
    · exact foldl_min_le_init ys x
    · exact foldl_min_le_mem ys y x hx

theorem mem_le_listMax (l : List ℚ) : ∀ x ∈ l, x ≤ listMax l := by
  cases l with
  | nil => intro x hx; simp at hx
  | cons y ys =>
    intro x hx
    rcases List.mem_cons.mp hx with rfl | hx
    · exact foldl_max_init_le ys x
    · exact foldl_max_mem_le ys y x hx

/-- Every percentile level in `[0, 100]` stays between `np.min` and
`np.max`. -/
theorem percentile_between_min_max (xs : List ℚ) (hxs : xs ≠ []) (p : ℚ)
    (hp : 0 ≤ p) (hq : p ≤ 100) :
    listMin xs ≤ percentile xs p ∧ percentile xs p ≤ listMax xs := by
  have hn : 1 ≤ xs.length := List.length_pos.mpr hxs
  have hn1 : (0 : ℚ) ≤ (xs.length : ℚ) - 1 := by
    have : (1 : ℚ) ≤ (xs.length : ℚ) := by exact_mod_cast hn
    linarith
  have hpos0 : (0 : ℚ) ≤ p * ((xs.length : ℚ) - 1) / 100 := by
    have := mul_nonneg hp hn1
    linarith
  have hposN : p * ((xs.length : ℚ) - 1) / 100 ≤ ((sortAsc xs).length : ℚ) - 1 := by
    rw [length_sortAsc]
    have := mul_le_mul_of_nonneg_right hq hn1
    linarith
  set s := sortAsc xs with hsdef
  have hs : List.Pairwise (fun a b => a ≤ b) s := pairwise_sortAsc xs
  set pos := p * ((xs.length : ℚ) - 1) / 100 with hposdef
  have hb := interpAt_between s hs pos hpos0
  have hiN : (Int.floor pos).toNat < s.length := by
    have hfl : Int.floor pos ≤ (s.length : ℤ) - 1 := by
      have hc : ((((s.length : ℤ) - 1 : ℤ)) : ℚ) = (s.length : ℚ) - 1 := by push_cast; ring
      have h2 : Int.floor pos ≤ Int.floor ((((s.length : ℤ) - 1 : ℤ)) : ℚ) :=
        Int.floor_le_floor (by rw [hc]; exact hposN)
      rwa [Int.floor_intCast] at h2
    have hsn : 1 ≤ s.length := by rw [hsdef, length_sortAsc]; exact hn
    omega
  have hcur_mem : s.getD (Int.floor pos).toNat 0 ∈ xs := by
    rw [getD_eq_getElem_of_lt _ _ _ hiN]
    exact (perm_sortAsc xs).mem_iff.mp (List.getElem_mem hiN)
  constructor
  · exact le_trans (listMin_le_mem xs _ hcur_mem) hb.1
  · by_cases hnext : (Int.floor pos).toNat + 1 < s.length
    · have hmem : s.getD ((Int.floor pos).toNat + 1) (s.getD (Int.floor pos).toNat 0) ∈ xs := by
        rw [getD_eq_getElem_of_lt _ _ _ hnext]
        exact (perm_sortAsc xs).mem_iff.mp (List.getElem_mem hnext)
      exact le_trans hb.2 (mem_le_listMax xs _ hmem)
    · have hd : s.getD ((Int.floor pos).toNat + 1) (s.getD (Int.floor pos).toNat 0) =
          s.getD (Int.floor pos).toNat 0 :=
        getD_default_of_le _ _ _ (by omega)
      rw [hd] at hb
      exact le_trans hb.2 (mem_le_listMax xs _ hcur_mem)

/-- `skewnessSqBiased` is the square of `scipy.stats.skew` at its default
`bias=True`: `g1 = m3 / m2^(3/2)`, so `g1² = m3² / m2³` (rational). -/
def skewnessSqBiased (l : List ℚ) : ℚ :=
  (centralMoment l 3) ^ 2 / (centralMoment l 2) ^ 3

/-- Modelled from the spec: the bias-corrected sample excess kurtosis
`G2 = (n−1)/((n−2)(n−3)) · ((n+1)·g2 + 6)` that the spec's words
"standard bias-corrected-sample definitions" denote (scipy's `bias=False`). -/
def kurtosisCorrected (l : List ℚ) : ℚ :=
  let n : ℚ := (l.length : ℚ)
  let g2 := centralMoment l 4 / (centralMoment l 2) ^ 2 - 3
  (n - 1) / ((n - 2) * (n - 3)) * ((n + 1) * g2 + 6)

/-- Modelled from the spec: the square of the bias-corrected sample skewness
`G1 = g1 · √(n(n−1))/(n−2)`, so `G1² = n(n−1)/(n−2)² · g1²` (rational). -/
def skewnessSqCorrected (l : List ℚ) : ℚ :=
  let n : ℚ := (l.length : ℚ)
  n * (n - 1) / (n - 2) ^ 2 * skewnessSqBiased l

end ExamAnalyzer

/-! ### src/utils/data_processor.py — class DataProcessor -/

namespace DataProcessor

/-- Python `str.strip()`: drop whitespace at both ends. -/
def pyStrip (s : String) : String :=
  (((s.toList.dropWhile Char.isWhitespace).reverse.dropWhile
    Char.isWhitespace).reverse).asString

/-- Python `str.lower()` (ASCII case mapping suffices for the data here). -/
def pyLower (s : String) : String := (s.toList.map Char.toLower).asString

/-- `leadMatch pat l` is true when `pat` begins `l`. -/
def leadMatch : List Char → List Char → Bool
  | [], _ => true
  | _ :: _, [] => false
  | x :: xs, y :: ys => x == y && leadMatch xs ys

/-- Python substring test `pat in hay` (contiguous; the empty pattern is
contained in everything). -/
def hasSub (pat : List Char) : List Char → Bool
  | [] => leadMatch pat []
  | c :: rest => leadMatch pat (c :: rest) || hasSub pat rest

/-! `difflib.SequenceMatcher(None, a, b).ratio()`, the third branch of
`DataProcessor._calculate_name_similarity`.  The matcher's junk machinery
(`autojunk`) only fires for sequences of 200+ characters and is a no-op for
name strings, so it is not modelled.  `find_longest_match` returns, among
the maximal common runs inside the window, the one starting earliest in `a`
and then earliest in `b`; `ratio` is `2·M / (len(a)+len(b))` where `M`
totals the sizes of the recursively collected matching blocks. -/

/-- Length of the common run of `a` (from `i`) and `b` (from `j`) inside the
windows ending at `ahi`/`bhi`. -/
def runLen (a b : List Char) (ahi bhi i j : Nat) : Nat :=
  if h : i < ahi ∧ j < bhi ∧ a.getD i ' ' = b.getD j ' ' then
    runLen a b ahi bhi (i + 1) (j + 1) + 1
  else 0
termination_by ahi - i
decreasing_by
  rcases h with ⟨h1, h2, h3⟩
  omega

theorem runLen_le_fuel (a b : List Char) (ahi bhi : Nat) :
    ∀ (n i j : Nat), ahi - i ≤ n →
      runLen a b ahi bhi i j ≤ ahi - i ∧ runLen a b ahi bhi i j ≤ bhi - j := by
  intro n
  induction n with
  | zero =>
    intro i j hn
    rw [runLen]
    split
    · rename_i h
      rcases h with ⟨h1, h2, h3⟩
      omega
    · omega
  | succ n ih =>
    intro i j hn
    rw [runLen]
    split
    · rename_i h
      rcases h with ⟨h1, h2, h3⟩
      have := ih (i + 1) (j + 1) (by omega)
      omega
    · omega

theorem runLen_le_a (a b : List Char) (ahi bhi i j : Nat) :
    runLen a b ahi bhi i j ≤ ahi - i :=
  (runLen_le_fuel a b ahi bhi (ahi - i) i j (le_refl _)).1

theorem runLen_le_b (a b : List Char) (ahi bhi i j : Nat) :
    runLen a b ahi bhi i j ≤ bhi - j :=
  (runLen_le_fuel a b ahi bhi (ahi - i) i j (le_refl _)).2

theorem runLen_match (a b : List Char) (ahi bhi i j : Nat) (t : Nat)
    (ht : t < runLen a b ahi bhi i j) :
    a.getD (i + t) ' ' = b.getD (j + t) ' ' := by
  induction t generalizing i j with
  | zero =>
    rw [runLen] at ht
    split at ht
    · rename_i h
      simpa using h.2.2
    · omega
  | succ t ih =>
    rw [runLen] at ht
    split at ht
    · rename_i h
      have := ih (i + 1) (j + 1) (by omega)
      have e1 : i + 1 + t = i + (t + 1) := by omega
      have e2 : j + 1 + t = j + (t + 1) := by omega
      rwa [e1, e2] at this
    · omega

/-- A foldl step that preserves a predicate preserves it over the whole
fold. -/
theorem foldl_preserve {α β : Type} (P : β → Prop) (f : β → α → β)
    (l : List α) (hf : ∀ z x, x ∈ l → P z → P (f z x)) (init : β)
    (hi : P init) : P (l.foldl f init) := by
  induction l generalizing init with
  | nil => exact hi
  | cons x xs ih =>
    exact ih (fun z y hy hz => hf z y (List.mem_cons_of_mem x hy) hz) _
      (hf init x (List.mem_cons_self x xs) hi)

/-- `find_longest_match` of `difflib.SequenceMatcher` on the window
`[alo, ahi) × [blo, bhi)`: the maximal common run, scanning candidate
starts in ascending `(i, j)` order with strict improvement, which yields
the earliest maximal block in `a`, then in `b` (with no junk, the two
extension loops of the CPython implementation are no-ops).  Returns
`(alo, blo, 0)` when the windows share nothing. -/
def flm (a b : List Char) (alo ahi blo bhi : Nat) : Nat × Nat × Nat :=
  (List.range' alo (ahi - alo)).foldl (fun (best : Nat × Nat × Nat) i =>
    (List.range' blo (bhi - blo)).foldl (fun (best : Nat × Nat × Nat) j =>
      if runLen a b ahi bhi i j > best.2.2 then (i, j, runLen a b ahi bhi i j)
      else best) best)
    (alo, blo, 0)

/-- Any non-trivial result of `flm` is a genuine in-window run. -/
theorem flm_inv (a b : List Char) (alo ahi blo bhi : Nat) :
    (flm a b alo ahi blo bhi).2.2 ≠ 0 →
      alo ≤ (flm a b alo ahi blo bhi).1 ∧ (flm a b alo ahi blo bhi).1 < ahi ∧
      blo ≤ (flm a b alo ahi blo bhi).2.1 ∧ (flm a b alo ahi blo bhi).2.1 < bhi ∧
      (flm a b alo ahi blo bhi).2.2 =
        runLen a b ahi bhi (flm a b alo ahi blo bhi).1 (flm a b alo ahi blo bhi).2.1 := by
  unfold flm
  refine foldl_preserve
    (fun best : Nat × Nat × Nat =>
      best.2.2 ≠ 0 → alo ≤ best.1 ∧ best.1 < ahi ∧ blo ≤ best.2.1 ∧
      best.2.1 < bhi ∧ best.2.2 = runLen a b ahi bhi best.1 best.2.1)
    _ _ ?_ _ (fun h => absurd rfl h)
  intro z i hi hz
  have hi' := List.mem_range'_1.mp hi
  refine foldl_preserve
    (fun best : Nat × Nat × Nat =>
      best.2.2 ≠ 0 → alo ≤ best.1 ∧ best.1 < ahi ∧ blo ≤ best.2.1 ∧
      best.2.1 < bhi ∧ best.2.2 = runLen a b ahi bhi best.1 best.2.1)
    _ _ ?_ _ hz
  intro w j hj hw
  have hj' := List.mem_range'_1.mp hj
  by_cases hgt : runLen a b ahi bhi i j > w.2.2
  · rw [if_pos hgt]
    intro _
    refine ⟨?_, ?_, ?_, ?_, rfl⟩
    · show alo ≤ i
      omega
    · show i < ahi
      omega
    · show blo ≤ j
      omega
    · show j < bhi
      omega
  · rw [if_neg hgt]
    exact hw

/-- The total size of the matching blocks collected by
`get_matching_blocks`: recursive decomposition around the longest match. -/
def matchesCount (a b : List Char) (alo ahi blo bhi : Nat) : Nat :=
  if hk : (flm a b alo ahi blo bhi).2.2 = 0 then 0
  else
    matchesCount a b alo (flm a b alo ahi blo bhi).1 blo
      (flm a b alo ahi blo bhi).2.1 +
    (flm a b alo ahi blo bhi).2.2 +
    matchesCount a b ((flm a b alo ahi blo bhi).1 + (flm a b alo ahi blo bhi).2.2)
      ahi ((flm a b alo ahi blo bhi).2.1 + (flm a b alo ahi blo bhi).2.2) bhi
termination_by (ahi - alo) + (bhi - blo)
decreasing_by
  · have h := flm_inv a b alo ahi blo bhi hk
    omega
  · have h := flm_inv a b alo ahi blo bhi hk
    have ha := runLen_le_a a b ahi bhi (flm a b alo ahi blo bhi).1
      (flm a b alo ahi blo bhi).2.1
    have hb := runLen_le_b a b ahi bhi (flm a b alo ahi blo bhi).1
      (flm a b alo ahi blo bhi).2.1
    omega

/-- The block total is bounded by both window widths (fuel-indexed). -/
theorem matchesCount_le_fuel (a b : List Char) :
    ∀ (n alo ahi blo bhi : Nat), (ahi - alo) + (bhi - blo) ≤ n →
      matchesCount a b alo ahi blo bhi ≤ ahi - alo ∧
      matchesCount a b alo ahi blo bhi ≤ bhi - blo := by
  intro n
  induction n with
  | zero =>
    intro alo ahi blo bhi hn
    rw [matchesCount]
    split
    · omega
    · rename_i hk
      have hinv := flm_inv a b alo ahi blo bhi hk
      omega
  | succ n ih =>
    intro alo ahi blo bhi hn
    rw [matchesCount]
    split
    · omega
    · rename_i hk
      have hinv := flm_inv a b alo ahi blo bhi hk
      have ha := runLen_le_a a b ahi bhi (flm a b alo ahi blo bhi).1
        (flm a b alo ahi blo bhi).2.1
      have hb := runLen_le_b a b ahi bhi (flm a b alo ahi blo bhi).1
        (flm a b alo ahi blo bhi).2.1
      have h1 := ih alo (flm a b alo ahi blo bhi).1 blo
        (flm a b alo ahi blo bhi).2.1 (by omega)
      have h2 := ih ((flm a b alo ahi blo bhi).1 + (flm a b alo ahi blo bhi).2.2)
        ahi ((flm a b alo ahi blo bhi).2.1 + (flm a b alo ahi blo bhi).2.2) bhi
        (by omega)
      omega

theorem matchesCount_le_a (a b : List Char) (alo ahi blo bhi : Nat) :
    matchesCount a b alo ahi blo bhi ≤ ahi - alo :=
  (matchesCount_le_fuel a b ((ahi - alo) + (bhi - blo)) alo ahi blo bhi
    (le_refl _)).1

theorem matchesCount_le_b (a b : List Char) (alo ahi blo bhi : Nat) :
    matchesCount a b alo ahi blo bhi ≤ bhi - blo :=
  (matchesCount_le_fuel a b ((ahi - alo) + (bhi - blo)) alo ahi blo bhi
    (le_refl _)).2

/-- When the block total fills both windows completely, the windows hold
the same characters position by position. -/
theorem matchesCount_full (a b : List Char) :
    ∀ (n alo ahi blo bhi : Nat), (ahi - alo) + (bhi - blo) ≤ n →
      matchesCount a b alo ahi blo bhi = ahi - alo →
      matchesCount a b alo ahi blo bhi = bhi - blo →
      ∀ t, t < ahi - alo → a.getD (alo + t) ' ' = b.getD (blo + t) ' ' := by
  intro n
  induction n with
  | zero =>
    intro alo ahi blo bhi hn hA hB t ht
    exact absurd ht (by omega)
  | succ n ih =>
    intro alo ahi blo bhi hn hA hB t ht
    rw [matchesCount] at hA hB
    by_cases hk : (flm a b alo ahi blo bhi).2.2 = 0
    · rw [dif_pos hk] at hA
      exact absurd ht (by omega)
    · rw [dif_neg hk] at hA hB
      have hinv := flm_inv a b alo ahi blo bhi hk
      have ha := runLen_le_a a b ahi bhi (flm a b alo ahi blo bhi).1
        (flm a b alo ahi blo bhi).2.1
      have hb := runLen_le_b a b ahi bhi (flm a b alo ahi blo bhi).1
        (flm a b alo ahi blo bhi).2.1
      have hbl1 := matchesCount_le_a a b alo (flm a b alo ahi blo bhi).1 blo
        (flm a b alo ahi blo bhi).2.1
      have hbl2 := matchesCount_le_b a b alo (flm a b alo ahi blo bhi).1 blo
        (flm a b alo ahi blo bhi).2.1
      have hbr1 := matchesCount_le_a a b
        ((flm a b alo ahi blo bhi).1 + (flm a b alo ahi blo bhi).2.2) ahi
        ((flm a b alo ahi blo bhi).2.1 + (flm a b alo ahi blo bhi).2.2) bhi
      have hbr2 := matchesCount_le_b a b
        ((flm a b alo ahi blo bhi).1 + (flm a b alo ahi blo bhi).2.2) ahi
        ((flm a b alo ahi blo bhi).2.1 + (flm a b alo ahi blo bhi).2.2) bhi
      by_cases hc1 : alo + t < (flm a b alo ahi blo bhi).1
      · exact ih alo (flm a b alo ahi blo bhi).1 blo (flm a b alo ahi blo bhi).2.1
          (by omega) (by omega) (by omega) t (by omega)
      · by_cases hc2 : alo + t <
            (flm a b alo ahi blo bhi).1 + (flm a b alo ahi blo bhi).2.2
        · have hmid := runLen_match a b ahi bhi (flm a b alo ahi blo bhi).1
            (flm a b alo ahi blo bhi).2.1 (alo + t - (flm a b alo ahi blo bhi).1)
            (by omega)
          have e1 : (flm a b alo ahi blo bhi).1 +
              (alo + t - (flm a b alo ahi blo bhi).1) = alo + t := by omega
          have e2 : (flm a b alo ahi blo bhi).2.1 +
              (alo + t - (flm a b alo ahi blo bhi).1) = blo + t := by omega
          rwa [e1, e2] at hmid
        · have hrec := ih
            ((flm a b alo ahi blo bhi).1 + (flm a b alo ahi blo bhi).2.2) ahi
            ((flm a b alo ahi blo bhi).2.1 + (flm a b alo ahi blo bhi).2.2) bhi
            (by omega) (by omega) (by omega)
            (alo + t - ((flm a b alo ahi blo bhi).1 + (flm a b alo ahi blo bhi).2.2))
            (by omega)
          have e1 : (flm a b alo ahi blo bhi).1 + (flm a b alo ahi blo bhi).2.2 +
              (alo + t - ((flm a b alo ahi blo bhi).1 +
                (flm a b alo ahi blo bhi).2.2)) = alo + t := by omega
          have e2 : (flm a b alo ahi blo bhi).2.1 + (flm a b alo ahi blo bhi).2.2 +
              (alo + t - ((flm a b alo ahi blo bhi).1 +
                (flm a b alo ahi blo bhi).2.2)) = blo + t := by omega
          rwa [e1, e2] at hrec

/-- `M`: total matched characters between the full strings. -/
def matchesTotal (a b : List Char) : Nat := matchesCount a b 0 a.length 0 b.length

/-- `SequenceMatcher.ratio()`: `2·M / (len(a) + len(b))`. -/
def ratioScore (a b : List Char) : ℚ :=
  2 * (matchesTotal a b : ℚ) / ((a.length : ℚ) + (b.length : ℚ))

/-- The normalisation both names get first: `name.lower().strip()`. -/
def norm (s : String) : String := pyStrip (pyLower s)

/-- `DataProcessor._calculate_name_similarity`: exact match after
normalisation → 1.0; substring containment in either direction → 0.9;
otherwise the `SequenceMatcher` ratio. -/
def calculate_name_similarity (name1 name2 : String) : ℚ :=
  if norm name1 = norm name2 then 1
  else if hasSub (norm name1).toList (norm name2).toList ||
      hasSub (norm name2).toList (norm name1).toList then 9/10
  else ratioScore (norm name1).toList (norm name2).toList

/-- Python `sheet_name.replace('_', ' ').title()` (ASCII titlecasing: a
letter is uppercased after a non-letter, lowercased otherwise). -/
def titleChars : List Char → Bool → List Char
  | [], _ => []
  | c :: rest, prevAlpha =>
    (if c.isAlpha then (if prevAlpha then c.toLower else c.toUpper) else c) ::
      titleChars rest c.isAlpha

/-- The subject label derived from a sheet name in
`consolidate_student_data`. -/
def subjectName (sheet : String) : String :=
  (titleChars (sheet.toList.map (fun c => if c = '_' then ' ' else c)) false).asString

/-- A sheet: its name and its rows as (raw student name, optional score);
the DataFrame column detection is not modelled — a sheet without
identifiable name/score columns contributes no rows. -/
abbrev Sheet := String × List (String × Option ℚ)

/-- First pass of `consolidate_student_data`: the `all_students` dict keys —
stripped, non-empty raw names in first-occurrence order. -/
def collectNames (sheets : List Sheet) : List String :=
  sheets.foldl (fun acc sheet =>
    sheet.2.foldl (fun acc row =>
      if pyStrip row.1 = "" then acc
      else if acc.contains (pyStrip row.1) then acc
      else acc ++ [pyStrip row.1]) acc) []

/-- Python `max(names, key=len)`: the first longest string. -/
def pyMaxByLen : List String → String
  | [] => ""
  | x :: xs => xs.foldl (fun best s => if s.length > best.length then s else best) x

/-- The `similar_names` list gathered for an unclustered anchor `name`. -/
def similarNames (threshold : ℚ) (allNames used : List String) (name : String) :
    List String :=
  name :: allNames.filter (fun o =>
    (!(o == name)) && (!(used.contains o)) &&
      decide (calculate_name_similarity name o ≥ threshold))

/-- The greedy clustering loop of `consolidate_student_data`: anchors in
input order, canonical form = first longest member, members marked used. -/
def clusterLoop (threshold : ℚ) (allNames : List String) :
    List String → List String → List (String × String) → List (String × String)
  | [], _, cmap => cmap
  | name :: rest, used, cmap =>
    if used.contains name then clusterLoop threshold allNames rest used cmap
    else
      clusterLoop threshold allNames rest
        (used ++ similarNames threshold allNames used name)
        (cmap ++ (similarNames threshold allNames used name).map
          (fun s => (s, pyMaxByLen (similarNames threshold allNames used name))))

/-- The `consolidated_names` mapping raw → canonical name. -/
def consolidated_names (sheets : List Sheet) (threshold : ℚ) :
    List (String × String) :=
  clusterLoop threshold (collectNames sheets) (collectNames sheets) [] []

/-- Python dict assignment `d[k] = v` on an insertion-ordered association
list: overwrite in place, else append. -/
def setKey (k : String) (v : ℚ) : List (String × ℚ) → List (String × ℚ)
  | [] => [(k, v)]
  | kv :: rest => if kv.1 = k then (k, v) :: rest else kv :: setKey k v rest

/-- `student_data[canonical_name][subject_name] = float(score)` including the
`if canonical_name not in student_data` initialisation. -/
def addScore (sd : List (String × List (String × ℚ))) (canon subj : String)
    (v : ℚ) : List (String × List (String × ℚ)) :=
  if sd.any (fun p => p.1 == canon) then
    sd.map (fun p => if p.1 = canon then (p.1, setKey subj v p.2) else p)
  else sd ++ [(canon, [(subj, v)])]

/-- One row of the second pass: skip NaN scores and falsy (empty) canonical
names, otherwise record the score under (canonical student, subject). -/
def rowStep (subj : String) (cmap : List (String × String))
    (sd : List (String × List (String × ℚ))) (row : String × Option ℚ) :
    List (String × List (String × ℚ)) :=
  match row.2 with
  | none => sd
  | some score =>
    if (cmap.lookup (pyStrip row.1)).getD (pyStrip row.1) = "" then sd
    else addScore sd ((cmap.lookup (pyStrip row.1)).getD (pyStrip row.1))
      subj score

/-- One sheet of the second pass. -/
def sheetStep (cmap : List (String × String))
    (sd : List (String × List (String × ℚ))) (sheet : Sheet) :
    List (String × List (String × ℚ)) :=
  sheet.2.foldl (rowStep (subjectName sheet.1) cmap) sd

/-- Second pass of `consolidate_student_data`: record each non-NaN score
under the canonical student and the sheet's subject label. -/
def secondPass (sheets : List Sheet) (cmap : List (String × String)) :
    List (String × List (String × ℚ)) :=
  sheets.foldl (sheetStep cmap) []

/-- `consolidate_student_data`: after both passes, each student's `"Total"`
is set to the sum of the record's values (computed before the assignment). -/
def consolidate_student_data (sheets : List Sheet) (threshold : ℚ) :
    List (String × List (String × ℚ)) :=
  (secondPass sheets (consolidated_names sheets threshold)).map
    (fun p => (p.1, setKey "Total" (p.2.map Prod.snd).sum p.2))

/-- A full double-sided block total forces the strings to coincide. -/
theorem matchesTotal_full_eq (a b : List Char)
    (hA : matchesTotal a b = a.length) (hB : matchesTotal a b = b.length) :
    a = b := by
  have hlen : a.length = b.length := by omega
  apply List.ext_getElem hlen
  intro i h1 h2
  have hfull := matchesCount_full a b (a.length + b.length) 0 a.length 0 b.length
    (by omega) (by simpa using hA) (by simpa using hB) i (by simpa using h1)
  simp only [Nat.zero_add] at hfull
  rwa [ExamAnalyzer.getD_eq_getElem_of_lt a ' ' i h1,
    ExamAnalyzer.getD_eq_getElem_of_lt b ' ' i h2] at hfull

theorem ratioScore_nonneg (a b : List Char) : 0 ≤ ratioScore a b := by
  unfold ratioScore
  positivity

theorem ratioScore_le_one (a b : List Char) : ratioScore a b ≤ 1 := by
  unfold ratioScore
  have hM1 : matchesTotal a b ≤ a.length := by
    have := matchesCount_le_a a b 0 a.length 0 b.length
    simpa [matchesTotal] using this
  have hM2 : matchesTotal a b ≤ b.length := by
    have := matchesCount_le_b a b 0 a.length 0 b.length
    simpa [matchesTotal] using this
  by_cases hz : (a.length : ℚ) + (b.length : ℚ) = 0
  · rw [hz, div_zero]
    norm_num
  · have hpos : (0 : ℚ) < (a.length : ℚ) + (b.length : ℚ) := by
      have h1 : (0 : ℚ) ≤ (a.length : ℚ) := by positivity
      have h2 : (0 : ℚ) ≤ (b.length : ℚ) := by positivity
      rcases lt_or_eq_of_le (add_nonneg h1 h2) with h | h
      · exact h
      · exact absurd h.symm hz
    rw [div_le_one hpos]
    have c1 : (matchesTotal a b : ℚ) ≤ (a.length : ℚ) := by exact_mod_cast hM1
    have c2 : (matchesTotal a b : ℚ) ≤ (b.length : ℚ) := by exact_mod_cast hM2
    linarith

theorem ratioScore_lt_one (a b : List Char) (hne : a ≠ b) :
    ratioScore a b < 1 := by
  have hM1 : matchesTotal a b ≤ a.length := by
    have := matchesCount_le_a a b 0 a.length 0 b.length
    simpa [matchesTotal] using this
  have hM2 : matchesTotal a b ≤ b.length := by
    have := matchesCount_le_b a b 0 a.length 0 b.length
    simpa [matchesTotal] using this
  have hlen : a.length + b.length ≠ 0 := by
    intro h
    apply hne
    have ha : a = [] := List.length_eq_zero.mp (by omega)
    have hb : b = [] := List.length_eq_zero.mp (by omega)
    rw [ha, hb]
  have hstrict : 2 * matchesTotal a b < a.length + b.length := by
    rcases Nat.lt_or_ge (2 * matchesTotal a b) (a.length + b.length) with h | h
    · exact h
    · exfalso
      have hA : matchesTotal a b = a.length := by omega
      have hB : matchesTotal a b = b.length := by omega
      exact hne (matchesTotal_full_eq a b hA hB)
  unfold ratioScore
  have hpos : (0 : ℚ) < (a.length : ℚ) + (b.length : ℚ) := by
    have : (0 : ℚ) < ((a.length + b.length : Nat) : ℚ) := by
      exact_mod_cast Nat.pos_of_ne_zero hlen
    push_cast at this
    linarith
  rw [div_lt_one hpos]
  have : ((2 * matchesTotal a b : Nat) : ℚ) < ((a.length + b.length : Nat) : ℚ) := by
    exact_mod_cast hstrict
  push_cast at this
  linarith

theorem mem_setKey (l : List (String × ℚ)) (k : String) (v : ℚ) (kv : String × ℚ)
    (h : kv ∈ setKey k v l) : kv = (k, v) ∨ kv ∈ l := by
  induction l with
  | nil =>
    simp only [setKey] at h
    left
    simpa using h
  | cons kv2 rest ih =>
    by_cases h2 : kv2.1 = k
    · simp only [setKey, if_pos h2] at h
      rcases List.mem_cons.mp h with rfl | h
      · left
        rfl
      · right
        exact List.mem_cons_of_mem _ h
    · simp only [setKey, if_neg h2] at h
      rcases List.mem_cons.mp h with rfl | h
      · right
        exact List.mem_cons_self _ _
      · rcases ih h with h | h
        · left
          exact h
        · right
          exact List.mem_cons_of_mem _ h

theorem lookup_setKey_self (l : List (String × ℚ)) (k : String) (v : ℚ)
    (h : ∀ kv ∈ l, kv.1 ≠ k) : (setKey k v l).lookup k = some v := by
  induction l with
  | nil => simp [setKey, List.lookup]
  | cons kv rest ih =>
    have hk : kv.1 ≠ k := h kv (List.mem_cons_self kv rest)
    have hbeq : (k == kv.1) = false :=
      beq_eq_false_iff_ne.mpr (fun he => hk he.symm)
    simp only [setKey, if_neg hk, List.lookup, hbeq]
    exact ih (fun x hx => h x (List.mem_cons_of_mem kv hx))

theorem filter_setKey_self (l : List (String × ℚ)) (k : String) (v : ℚ)
    (h : ∀ kv ∈ l, kv.1 ≠ k) :
    (setKey k v l).filter (fun kv => !(kv.1 == k)) = l := by
  induction l with
  | nil => simp [setKey]
  | cons kv rest ih =>
    have hk : kv.1 ≠ k := h kv (List.mem_cons_self kv rest)
    have hbeq : (kv.1 == k) = false := beq_eq_false_iff_ne.mpr hk
    simp only [setKey, if_neg hk, List.filter, hbeq]
    simp only [Bool.not_false]
    rw [ih (fun x hx => h x (List.mem_cons_of_mem kv hx))]

/-- `kv` occurs in one of the records of `sd`. -/
def keyFrom (sd : List (String × List (String × ℚ))) (kv : String × ℚ) : Prop :=
  ∃ p ∈ sd, kv ∈ p.2

theorem addScore_keys (sd : List (String × List (String × ℚ)))
    (canon subj : String) (v : ℚ) (s : String) (rec : List (String × ℚ))
    (kv : String × ℚ) (hrec : (s, rec) ∈ addScore sd canon subj v)
    (hkv : kv ∈ rec) : kv.1 = subj ∨ keyFrom sd kv := by
  unfold addScore at hrec
  split at hrec
  · rcases List.mem_map.mp hrec with ⟨p, hp, he⟩
    by_cases hc : p.1 = canon
    · rw [if_pos hc] at he
      have hr : rec = setKey subj v p.2 := (congrArg Prod.snd he).symm
      rw [hr] at hkv
      rcases mem_setKey _ _ _ _ hkv with rfl | h
      · left
        rfl
      · right
        exact ⟨p, hp, h⟩
    · rw [if_neg hc] at he
      right
      refine ⟨p, hp, ?_⟩
      have hr : rec = p.2 := (congrArg Prod.snd he).symm
      rwa [hr] at hkv
  · rcases List.mem_append.mp hrec with h | h
    · right
      exact ⟨(s, rec), h, hkv⟩
    · have he : (s, rec) = (canon, [(subj, v)]) := List.mem_singleton.mp h
      have hr : rec = [(subj, v)] := congrArg Prod.snd he
      rw [hr] at hkv
      left
      have hkv2 := List.mem_singleton.mp hkv
      rw [hkv2]

theorem rowStep_keys (subj : String) (cmap : List (String × String))
    (sd : List (String × List (String × ℚ))) (row : String × Option ℚ)
    (s : String) (rec : List (String × ℚ)) (kv : String × ℚ)
    (hrec : (s, rec) ∈ rowStep subj cmap sd row) (hkv : kv ∈ rec) :
    kv.1 = subj ∨ keyFrom sd kv := by
  unfold rowStep at hrec
  rcases hr : row.2 with _ | score
  · rw [hr] at hrec
    right
    exact ⟨(s, rec), hrec, hkv⟩
  · rw [hr] at hrec
    dsimp only at hrec
    by_cases hcond : (cmap.lookup (pyStrip row.1)).getD (pyStrip row.1) = ""
    · rw [if_pos hcond] at hrec
      right
      exact ⟨(s, rec), hrec, hkv⟩
    · rw [if_neg hcond] at hrec
      exact addScore_keys _ _ _ _ _ _ _ hrec hkv

theorem rowsFold_keys (subj : String) (cmap : List (String × String)) :
    ∀ (rows : List (String × Option ℚ)) (sd : List (String × List (String × ℚ)))
      (s : String) (rec : List (String × ℚ)) (kv : String × ℚ),
      (s, rec) ∈ rows.foldl (rowStep subj cmap) sd → kv ∈ rec →
      kv.1 = subj ∨ keyFrom sd kv := by
  intro rows
  induction rows with
  | nil =>
    intro sd s rec kv hrec hkv
    right
    exact ⟨(s, rec), hrec, hkv⟩
  | cons r rows ih =>
    intro sd s rec kv hrec hkv
    rcases ih (rowStep subj cmap sd r) s rec kv hrec hkv with h | h
    · left
      exact h
    · rcases h with ⟨p, hp, hkvp⟩
      exact rowStep_keys subj cmap sd r p.1 p.2 kv hp hkvp

theorem sheetsFold_keys (cmap : List (String × String)) :
    ∀ (sheets : List Sheet) (sd : List (String × List (String × ℚ)))
      (s : String) (rec : List (String × ℚ)) (kv : String × ℚ),
      (s, rec) ∈ sheets.foldl (sheetStep cmap) sd → kv ∈ rec →
      (∃ sh ∈ sheets, kv.1 = subjectName sh.1) ∨ keyFrom sd kv := by
  intro sheets
  induction sheets with
  | nil =>
    intro sd s rec kv hrec hkv
    right
    exact ⟨(s, rec), hrec, hkv⟩
  | cons sh rest ih =>
    intro sd s rec kv hrec hkv
    rcases ih (sheetStep cmap sd sh) s rec kv hrec hkv with h | h
    · rcases h with ⟨sh2, hsh2, he⟩
      left
      exact ⟨sh2, List.mem_cons_of_mem sh hsh2, he⟩
    · rcases h with ⟨p, hp, hkvp⟩
      rcases rowsFold_keys (subjectName sh.1) cmap sh.2 sd p.1 p.2 kv hp hkvp with
        h | h
      · left
        exact ⟨sh, List.mem_cons_self sh rest, h⟩
      · right
        exact h

/-- Every key in a `secondPass` record is some sheet's subject label. -/
theorem secondPass_keys (sheets : List Sheet) (cmap : List (String × String))
    (s : String) (rec : List (String × ℚ)) (kv : String × ℚ)
    (hrec : (s, rec) ∈ secondPass sheets cmap) (hkv : kv ∈ rec) :
    ∃ sh ∈ sheets, kv.1 = subjectName sh.1 := by
  rcases sheetsFold_keys cmap sheets [] s rec kv hrec hkv with h | h
  · exact h
  · rcases h with ⟨p, hp, _⟩
    simp at hp

end DataProcessor

/-- C6: `_calculate_name_similarity` is the piecewise function — 1.0 on
exact normalised match, 0.9 on substring containment (either direction),
otherwise the sequence-alignment ratio, which lies in `[0, 1)`; the result
is always in `[0, 1]`, `similarity(x, x) = 1`,
`similarity("Alice", "alice") = 1` and
`similarity("Jon", "Jonathan Smith") = 0.9`. -/
theorem claim6_similarity :
    (∀ x y : String,
      (DataProcessor.norm x = DataProcessor.norm y →
        DataProcessor.calculate_name_similarity x y = 1) ∧
      (DataProcessor.norm x ≠ DataProcessor.norm y →
        (DataProcessor.hasSub (DataProcessor.norm x).toList
            (DataProcessor.norm y).toList ||
          DataProcessor.hasSub (DataProcessor.norm y).toList
            (DataProcessor.norm x).toList) = true →
        DataProcessor.calculate_name_similarity x y = 9/10) ∧
      (DataProcessor.norm x ≠ DataProcessor.norm y →
        (DataProcessor.hasSub (DataProcessor.norm x).toList
            (DataProcessor.norm y).toList ||
          DataProcessor.hasSub (DataProcessor.norm y).toList
            (DataProcessor.norm x).toList) = false →
        DataProcessor.calculate_name_similarity x y =
          DataProcessor.ratioScore (DataProcessor.norm x).toList
            (DataProcessor.norm y).toList ∧
        0 ≤ DataProcessor.ratioScore (DataProcessor.norm x).toList
            (DataProcessor.norm y).toList ∧
        DataProcessor.ratioScore (DataProcessor.norm x).toList
            (DataProcessor.norm y).toList < 1) ∧
      (0 ≤ DataProcessor.calculate_name_similarity x y ∧
        DataProcessor.calculate_name_similarity x y ≤ 1)) ∧
    (∀ x : String, DataProcessor.calculate_name_similarity x x = 1) ∧
    DataProcessor.calculate_name_similarity "Alice" "alice" = 1 ∧
    DataProcessor.calculate_name_similarity "Jon" "Jonathan Smith" = 9/10 := by
  have hbr : ∀ x y : String,
      (DataProcessor.norm x = DataProcessor.norm y →
        DataProcessor.calculate_name_similarity x y = 1) ∧
      (DataProcessor.norm x ≠ DataProcessor.norm y →
        (DataProcessor.hasSub (DataProcessor.norm x).toList
            (DataProcessor.norm y).toList ||
          DataProcessor.hasSub (DataProcessor.norm y).toList
            (DataProcessor.norm x).toList) = true →
        DataProcessor.calculate_name_similarity x y = 9/10) ∧
      (DataProcessor.norm x ≠ DataProcessor.norm y →
        (DataProcessor.hasSub (DataProcessor.norm x).toList
            (DataProcessor.norm y).toList ||
          DataProcessor.hasSub (DataProcessor.norm y).toList
            (DataProcessor.norm x).toList) = false →
        DataProcessor.calculate_name_similarity x y =
          DataProcessor.ratioScore (DataProcessor.norm x).toList
            (DataProcessor.norm y).toList ∧
        0 ≤ DataProcessor.ratioScore (DataProcessor.norm x).toList
            (DataProcessor.norm y).toList ∧
        DataProcessor.ratioScore (DataProcessor.norm x).toList
            (DataProcessor.norm y).toList < 1) := by
    intro x y
    refine ⟨?_, ?_, ?_⟩
    · intro h
      unfold DataProcessor.calculate_name_similarity
      rw [if_pos h]
    · intro h1 h2
      unfold DataProcessor.calculate_name_similarity
      rw [if_neg h1, if_pos h2]
    · intro h1 h2
      have hnel : (DataProcessor.norm x).toList ≠ (DataProcessor.norm y).toList := by
        intro hl
        exact h1 (String.ext hl)
      refine ⟨?_, DataProcessor.ratioScore_nonneg _ _,
        DataProcessor.ratioScore_lt_one _ _ hnel⟩
      unfold DataProcessor.calculate_name_similarity
      rw [if_neg h1, if_neg (by rw [h2]; simp)]
  refine ⟨?_, ?_, ?_, ?_⟩
  · intro x y
    refine ⟨(hbr x y).1, (hbr x y).2.1, (hbr x y).2.2, ?_⟩
    by_cases h1 : DataProcessor.norm x = DataProcessor.norm y
    · rw [(hbr x y).1 h1]
      norm_num
    · rcases hsub : (DataProcessor.hasSub (DataProcessor.norm x).toList
          (DataProcessor.norm y).toList ||
        DataProcessor.hasSub (DataProcessor.norm y).toList
          (DataProcessor.norm x).toList) with _ | _
      · rcases (hbr x y).2.2 h1 hsub with ⟨he, h0, hl⟩
        rw [he]
        exact ⟨h0, le_of_lt hl⟩
      · rw [(hbr x y).2.1 h1 hsub]
        norm_num
  · intro x
    exact (hbr x x).1 rfl
  · exact (hbr "Alice" "alice").1 (by decide)
  · exact (hbr "Jon" "Jonathan Smith").2.1 (by decide) (by decide)

/-- Witness for C6: the ratio branch taken for `"abc"` versus `"bd"`, whose
ratio must be strictly below 1. -/
theorem claim6_witness :
    DataProcessor.calculate_name_similarity "abc" "bd" =
      DataProcessor.ratioScore (DataProcessor.norm "abc").toList
        (DataProcessor.norm "bd").toList ∧
    0 ≤ DataProcessor.ratioScore (DataProcessor.norm "abc").toList
        (DataProcessor.norm "bd").toList ∧
    DataProcessor.ratioScore (DataProcessor.norm "abc").toList
        (DataProcessor.norm "bd").toList < 1 :=
  (claim6_similarity.1 "abc" "bd").2.2.1 (by decide) (by decide)

/-- C5: in every snapshot produced by `consolidate_student_data` of sheets
whose subject labels are not themselves `"Total"`, each student's `"Total"`
entry is the sum of that student's recorded subject scores; in particular
consolidating `{"Math": [("Alice", 80)], "Science": [("Alice", 70)]}` yields
exactly `{"Alice": {"Math": 80, "Science": 70, "Total": 150}}`. -/
theorem claim5_total_sum :
    (∀ (sheets : List DataProcessor.Sheet) (threshold : ℚ),
      (∀ sh ∈ sheets, DataProcessor.subjectName sh.1 ≠ "Total") →
      ∀ (s : String) (r : List (String × ℚ)),
        (s, r) ∈ DataProcessor.consolidate_student_data sheets threshold →
        r.lookup "Total" =
          some (((r.filter (fun kv => !(kv.1 == "Total"))).map Prod.snd).sum)) ∧
    DataProcessor.consolidate_student_data
      [("Math", [("Alice", some 80)]), ("Science", [("Alice", some 70)])]
      (8/10) =
      [("Alice", [("Math", 80), ("Science", 70), ("Total", 150)])] := by
  constructor
  · intro sheets threshold hnot s r hr
    unfold DataProcessor.consolidate_student_data at hr
    rcases List.mem_map.mp hr with ⟨p, hp, he⟩
    have hrval : r = DataProcessor.setKey "Total" (p.2.map Prod.snd).sum p.2 :=
      (congrArg Prod.snd he).symm
    have hkeys : ∀ kv ∈ p.2, (kv : String × ℚ).1 ≠ "Total" := by
      intro kv hkv
      rcases DataProcessor.secondPass_keys sheets _ p.1 p.2 kv hp hkv with
        ⟨sh, hsh, he2⟩
      rw [he2]
      exact hnot sh hsh
    rw [hrval, DataProcessor.lookup_setKey_self _ _ _ hkeys,
      DataProcessor.filter_setKey_self _ _ _ hkeys]
  · have h2 : DataProcessor.consolidated_names
        [("Math", [("Alice", some 80)]), ("Science", [("Alice", some 70)])]
        (8/10) = [("Alice", "Alice")] := by decide
    have h3 : DataProcessor.secondPass
        [("Math", [("Alice", some 80)]), ("Science", [("Alice", some 70)])]
        [("Alice", "Alice")] = [("Alice", [("Math", 80), ("Science", 70)])] := by
      decide
    unfold DataProcessor.consolidate_student_data
    rw [h2, h3]
    norm_num [DataProcessor.setKey]
    rw [if_neg (show ¬("Math" = "Total") by decide),
      if_neg (show ¬("Science" = "Total") by decide)]

/-- Witness for C5: the general Total-sum law applied to the concrete
two-sheet example. -/
theorem claim5_witness :
    ([("Math", (80 : ℚ)), ("Science", 70), ("Total", 150)]).lookup "Total" =
      some ((([("Math", (80 : ℚ)), ("Science", 70), ("Total", 150)]).filter
        (fun kv => !(kv.1 == "Total"))).map Prod.snd).sum := by
  have h := claim5_total_sum.1
    [("Math", [("Alice", some 80)]), ("Science", [("Alice", some 70)])] (8/10)
    (by decide) "Alice" [("Math", 80), ("Science", 70), ("Total", 150)]
    (by rw [claim5_total_sum.2]; exact List.mem_singleton.mpr rfl)
  exact h

/-! ### src/utils/historical_analyzer.py — class HistoricalAnalyzer -/

namespace HistoricalAnalyzer

/-- A student record: the Python dict subject → score, as an
insertion-ordered association list (`"Total"` is an ordinary key). -/
abbrev Record := List (String × ℚ)

/-- A consolidated snapshot: the Python dict student → record. -/
abbrev Snapshot := List (String × Record)

/-- The per-subject comparison dict built by `compare_student_progress`. -/
structure SubjectProgress where
  current : ℚ
  previous : ℚ
  change : ℚ
  percentage_change : ℚ
  deriving DecidableEq, Inhabited

/-- The `student_progress` dict of `compare_student_progress`.
`total_percentage_change` is only set when a `"Total"` key is present in
both records, hence the `Option`. -/
structure StudentProgress where
  student_name : String
  subjects : List (String × SubjectProgress)
  total_change : ℚ
  total_percentage_change : Option ℚ
  improved_subjects : List String
  declined_subjects : List String
  overall_trend : String
  deriving DecidableEq, Inhabited

/-- Loop state while iterating over the current student's subjects. -/
structure ProgressState where
  subjects : List (String × SubjectProgress)
  total_change : ℚ
  total_pct : Option ℚ
  improved : List String
  declined : List String
  deriving DecidableEq, Inhabited

/-- The subject loop and trend classification of
`compare_student_progress` for one student present in both snapshots.
`percentage_change` is `0` whenever the previous score is not positive
(the code guards `if previous_score > 0`). -/
def progressFor (student : String) (cur_scores prevRec : Record) : StudentProgress :=
  let st := cur_scores.foldl (fun (st : ProgressState) sc =>
    match prevRec.lookup sc.1 with
    | none => st
    | some ps =>
      let change := sc.2 - ps
      let pct := if ps > 0 then change / ps * 100 else 0
      let st' : ProgressState :=
        { st with subjects := st.subjects ++ [(sc.1, ⟨sc.2, ps, change, pct⟩)] }
      if sc.1 = "Total" then
        { st' with total_change := change, total_pct := some pct }
      else if change > 0 then { st' with improved := st'.improved ++ [sc.1] }
      else if change < 0 then { st' with declined := st'.declined ++ [sc.1] }
      else st')
    { subjects := [], total_change := 0, total_pct := none,
      improved := [], declined := [] }
  { student_name := student
    subjects := st.subjects
    total_change := st.total_change
    total_percentage_change := st.total_pct
    improved_subjects := st.improved
    declined_subjects := st.declined
    overall_trend :=
      if st.total_change > 5 then "improved"
      else if st.total_change < -5 then "declined"
      else "stable" }

/-- `HistoricalAnalyzer.compare_student_progress` after the stored-exam
lookup: join current and previous snapshots on exact student-name equality,
in current-snapshot order. -/
def compare_student_progress (current previous : Snapshot) :
    List (String × StudentProgress) :=
  current.filterMap (fun sc =>
    match previous.lookup sc.1 with
    | none => none
    | some prevRec => some (sc.1, progressFor sc.1 sc.2 prevRec))

/-- One entry of `create_comprehensive_ranking`'s output.  Python builds the
dict without `'rank'` and inserts it after sorting; the embedding carries a
`rank` field that the final enumeration overwrites. -/
structure CompEntry where
  student_name : String
  total_score : ℚ
  subject_count : Nat
  average_per_subject : ℚ
  best_subject : Option (String × ℚ)
  worst_subject : Option (String × ℚ)
  subject_scores : List (String × ℚ)
  rank : Nat
  deriving DecidableEq, Inhabited

/-- Python `max(items, key=value)`: the first item attaining the maximal
value (`none` on an empty list, which the caller guards). -/
def maxItem (l : List (String × ℚ)) : Option (String × ℚ) :=
  l.foldl (fun acc kv =>
    match acc with
    | none => some kv
    | some m => if kv.2 > m.2 then some kv else acc) none

/-- Python `min(items, key=value)`: the first item attaining the minimal
value. -/
def minItem (l : List (String × ℚ)) : Option (String × ℚ) :=
  l.foldl (fun acc kv =>
    match acc with
    | none => some kv
    | some m => if kv.2 < m.2 then some kv else acc) none

/-- `HistoricalAnalyzer.create_comprehensive_ranking`: entries for students
with a `"Total"` key, sorted by total descending (stable), then ranks
assigned as `i + 1` by `enumerate` — with no tie handling. -/
def create_comprehensive_ranking (student_data : Snapshot) : List CompEntry :=
  ((sortDescBy (fun e : CompEntry => e.total_score)
    (student_data.filterMap (fun sc =>
      match sc.2.lookup "Total" with
      | none => none
      | some total =>
        some ({ student_name := sc.1
                total_score := total
                subject_count := (sc.2.filter (fun kv => !(kv.1 == "Total"))).length
                average_per_subject :=
                  if sc.2.filter (fun kv => !(kv.1 == "Total")) = [] then 0
                  else total / ((sc.2.filter (fun kv => !(kv.1 == "Total"))).length : ℚ)
                best_subject := maxItem (sc.2.filter (fun kv => !(kv.1 == "Total")))
                worst_subject := minItem (sc.2.filter (fun kv => !(kv.1 == "Total")))
                subject_scores := sc.2.filter (fun kv => !(kv.1 == "Total"))
                rank := 0 } : CompEntry)))).enum).map
    (fun ie : Nat × CompEntry => { ie.2 with rank := ie.1 + 1 })

theorem enumFrom_map_rank_getD (l : List CompEntry) (n i : Nat) (h : i < l.length) :
    (((List.enumFrom n l).map
      (fun ie : Nat × CompEntry => { ie.2 with rank := ie.1 + 1 })).getD i
      default).rank = n + i + 1 := by
  induction l generalizing n i with
  | nil => simp at h
  | cons x xs ih =>
    cases i with
    | zero => simp [List.enumFrom]
    | succ i =>
      have h' : i < xs.length := by simpa using h
      simp only [List.enumFrom, List.map_cons, List.getD_cons_succ]
      rw [ih (n + 1) i h']
      omega

theorem enumFrom_map_total (l : List CompEntry) (n : Nat) :
    (((List.enumFrom n l).map
      (fun ie : Nat × CompEntry => { ie.2 with rank := ie.1 + 1 })).map
      (fun e => e.total_score)) = l.map (fun e => e.total_score) := by
  induction l generalizing n with
  | nil => rfl
  | cons x xs ih => simp [List.enumFrom, ih]

/-- `progressFor` computes `overall_trend` from the very `total_change` it
returns (both read the final loop state). -/
theorem progressFor_trend (student : String) (cur_scores prevRec : Record) :
    (progressFor student cur_scores prevRec).overall_trend =
      (if (progressFor student cur_scores prevRec).total_change > 5 then "improved"
       else if (progressFor student cur_scores prevRec).total_change < -5 then "declined"
       else "stable") := rfl

/-- Trend trichotomy for any progress record whose trend is the
threshold classification of its own total change. -/
theorem trend_cases (q : StudentProgress)
    (h : q.overall_trend =
      if q.total_change > 5 then "improved"
      else if q.total_change < -5 then "declined" else "stable") :
    (q.overall_trend = "improved" ↔ q.total_change > 5) ∧
    (q.overall_trend = "declined" ↔ q.total_change < -5) ∧
    (q.overall_trend = "stable" ↔ (-5 ≤ q.total_change ∧ q.total_change ≤ 5)) := by
  by_cases h1 : q.total_change > 5
  · rw [if_pos h1] at h
    rw [h]
    refine ⟨⟨fun _ => h1, fun _ => rfl⟩, ?_, ?_⟩
    · constructor
      · intro hx
        exact absurd hx (by decide)
      · intro hx
        linarith
    · constructor
      · intro hx
        exact absurd hx (by decide)
      · intro hx
        linarith [hx.2]
  · rw [if_neg h1] at h
    by_cases h2 : q.total_change < -5
    · rw [if_pos h2] at h
      rw [h]
      refine ⟨?_, ⟨fun _ => h2, fun _ => rfl⟩, ?_⟩
      · constructor
        · intro hx
          exact absurd hx (by decide)
        · intro hx
          linarith
      · constructor
        · intro hx
          exact absurd hx (by decide)
        · intro hx
          linarith [hx.1]
    · rw [if_neg h2] at h
      rw [h]
      refine ⟨?_, ?_, ?_⟩
      · constructor
        · intro hx
          exact absurd hx (by decide)
        · intro hx
          exact absurd hx h1
      · constructor
        · intro hx
          exact absurd hx (by decide)
        · intro hx
          exact absurd hx h2
      · refine ⟨fun _ => ⟨by linarith [not_lt.mp h2], by linarith [not_lt.mp h1]⟩,
          fun _ => rfl⟩

end HistoricalAnalyzer

/-- C7: for every student joined by `compare_student_progress`, the overall
trend is `"improved"` exactly when the total change exceeds 5, `"declined"`
exactly when it is below −5, and `"stable"` otherwise; in the Bob example
(current total 80, previous 60) the total change is 20 and the trend
`"improved"`. -/
theorem claim7_trend_thresholds :
    (∀ (current previous : HistoricalAnalyzer.Snapshot) (s : String)
        (p : HistoricalAnalyzer.StudentProgress),
      (s, p) ∈ HistoricalAnalyzer.compare_student_progress current previous →
      ((p.overall_trend = "improved" ↔ p.total_change > 5) ∧
       (p.overall_trend = "declined" ↔ p.total_change < -5) ∧
       (p.overall_trend = "stable" ↔ (-5 ≤ p.total_change ∧ p.total_change ≤ 5)))) ∧
    (HistoricalAnalyzer.progressFor "Bob" [("Total", 80)] [("Total", 60)]).total_change
      = 20 ∧
    (HistoricalAnalyzer.progressFor "Bob" [("Total", 80)] [("Total", 60)]).overall_trend
      = "improved" ∧
    HistoricalAnalyzer.compare_student_progress [("Bob", [("Total", 80)])]
      [("Bob", [("Total", 60)])] =
      [("Bob", HistoricalAnalyzer.progressFor "Bob" [("Total", 80)] [("Total", 60)])] := by
  refine ⟨?_, ?_, ?_, ?_⟩
  · intro current previous s p hmem
    rcases List.mem_filterMap.mp hmem with ⟨sc, _, hf⟩
    rcases hlk : previous.lookup sc.1 with _ | prevRec
    · rw [hlk] at hf
      cases hf
    · rw [hlk] at hf
      injection hf with hf1
      have hp : p = HistoricalAnalyzer.progressFor sc.1 sc.2 prevRec :=
        (congrArg Prod.snd hf1).symm
      rw [hp]
      exact HistoricalAnalyzer.trend_cases _
        (HistoricalAnalyzer.progressFor_trend sc.1 sc.2 prevRec)
  · norm_num [HistoricalAnalyzer.progressFor, List.lookup]
  · norm_num [HistoricalAnalyzer.progressFor, List.lookup]
  · norm_num [HistoricalAnalyzer.compare_student_progress, List.filterMap,
      List.lookup]

/-- Witness for C7: the trend iff applied to the Bob example. -/
theorem claim7_witness :
    (HistoricalAnalyzer.progressFor "Bob" [("Total", 80)] [("Total", 60)]).overall_trend
        = "improved" ↔
      (HistoricalAnalyzer.progressFor "Bob" [("Total", 80)] [("Total", 60)]).total_change
        > 5 :=
  (claim7_trend_thresholds.1 [("Bob", [("Total", 80)])] [("Bob", [("Total", 60)])]
    "Bob" _ (by
      rw [claim7_trend_thresholds.2.2.2]
      exact List.mem_singleton.mpr rfl)).1

/-- C2 counterexample: two students with equal totals (90 and 90) receive
distinct ranks 1 and 2 from `create_comprehensive_ranking` — multi-subject
snapshot ranking shares no rank between tied totals. -/
theorem claim2_counterexample :
    (HistoricalAnalyzer.create_comprehensive_ranking
      [("A", [("Math", 90), ("Total", 90)]),
       ("B", [("Math", 90), ("Total", 90)])]).map
      (fun e => (e.total_score, e.rank)) = [(90, 1), (90, 2)] ∧
    ¬ (1 : Nat) = 2 := by
  constructor
  · norm_num [HistoricalAnalyzer.create_comprehensive_ranking, List.lookup,
      List.filterMap, sortDescBy, insertDescBy, HistoricalAnalyzer.maxItem,
      HistoricalAnalyzer.minItem, List.enum, List.enumFrom]
  · decide

/-- C2 amended: `create_comprehensive_ranking` sorts by `"Total"` descending
but assigns strictly sequential ranks `i + 1`, so tied totals receive
distinct consecutive ranks; it does not use the tie-aware competition
ranking shared by the single-subject path. -/
theorem claim2_sequential_ranks :
    ∀ sd : HistoricalAnalyzer.Snapshot,
      List.Pairwise (fun a b => a ≥ b)
        ((HistoricalAnalyzer.create_comprehensive_ranking sd).map
          (fun e => e.total_score)) ∧
      ∀ i, i < (HistoricalAnalyzer.create_comprehensive_ranking sd).length →
        ((HistoricalAnalyzer.create_comprehensive_ranking sd).getD i default).rank =
          i + 1 := by
  intro sd
  constructor
  · unfold HistoricalAnalyzer.create_comprehensive_ranking
    rw [show List.enum = List.enumFrom 0 from rfl,
      HistoricalAnalyzer.enumFrom_map_total]
    exact List.pairwise_map.mpr (pairwise_sortDescBy _ _)
  · intro i hi
    unfold HistoricalAnalyzer.create_comprehensive_ranking at hi ⊢
    rw [show List.enum = List.enumFrom 0 from rfl] at hi ⊢
    rw [List.length_map, List.enumFrom_length] at hi
    rw [HistoricalAnalyzer.enumFrom_map_rank_getD _ 0 i hi]
    omega

/-- Witness for C2 at a concrete snapshot. -/
theorem claim2_witness :
    ((HistoricalAnalyzer.create_comprehensive_ranking
      [("A", [("Math", 90), ("Total", 90)])]).getD 0 default).rank = 0 + 1 :=
  (claim2_sequential_ranks [("A", [("Math", 90), ("Total", 90)])]).2 0
    (by norm_num [HistoricalAnalyzer.create_comprehensive_ranking, List.lookup,
      List.filterMap, sortDescBy, insertDescBy, List.enum, List.enumFrom])

/-- C3 counterexample: a ranking computation on zero data points does not
raise — `calculate_rankings([])` returns the empty list — while the
statistics computation does raise (`ValueError`, the `EmptyInputError` of
the spec). -/
theorem claim3_counterexample :
    RankingSystem.calculate_rankings [] none 100 = [] ∧
    ExamAnalyzer.analyze [] = Except.error "No marks provided for analysis" :=
  ⟨rfl, rfl⟩

/-- C3 amended: the statistics computation (`ExamAnalyzer.analyze`) raises
an error on an empty input and on an input whose entries are all discarded
as NaN, and succeeds otherwise; the ranking computation
(`RankingSystem.calculate_rankings`) instead returns an empty list on empty
input, following the "empty → empty result" policy. -/
theorem claim3_empty_input :
    (∀ marks : List (Option ℚ),
      (marks = [] →
        ExamAnalyzer.analyze marks = Except.error "No marks provided for analysis") ∧
      (marks ≠ [] → marks.filterMap id = [] →
        ExamAnalyzer.analyze marks = Except.error "No valid marks found") ∧
      (marks.filterMap id ≠ [] →
        ExamAnalyzer.analyze marks =
          Except.ok (ExamAnalyzer.analyzeStats (marks.filterMap id)))) ∧
    (∀ (names : Option (List String)) (maxm : ℚ),
      RankingSystem.calculate_rankings [] names maxm = []) := by
  constructor
  · intro marks
    refine ⟨?_, ?_, ?_⟩
    · intro h
      subst h
      rfl
    · intro h1 h2
      unfold ExamAnalyzer.analyze
      rw [if_neg h1, if_pos h2]
    · intro h3
      have h1 : marks ≠ [] := by
        intro h
        subst h
        simp at h3
      unfold ExamAnalyzer.analyze
      rw [if_neg h1, if_neg h3]
  · intro names maxm
    rfl

/-- Witness for C3 at concrete inputs: an all-NaN list errors, a singleton
list succeeds. -/
theorem claim3_witness :
    ExamAnalyzer.analyze [none] = Except.error "No valid marks found" ∧
    ExamAnalyzer.analyze [some 7] =
      Except.ok (ExamAnalyzer.analyzeStats [(7 : ℚ)]) :=
  ⟨(claim3_empty_input.1 [none]).2.1 (by decide) (by decide),
   (claim3_empty_input.1 [some 7]).2.2 (by decide)⟩

/-- C4: in every successful analysis the fence is
`[q1 − 1.5·iqr, q3 + 1.5·iqr]`, a mark is reported as an outlier iff it is
strictly outside the fence (so a mark exactly on a bound is never an
outlier), and the result carries the outlier list, its count and its
percentage of the sample. -/
theorem claim4_outlier_fence :
    ∀ (marks : List (Option ℚ)) (r : ExamAnalyzer.Stats),
      ExamAnalyzer.analyze marks = Except.ok r →
      r.lower_bound = r.q1 - 3/2 * r.iqr ∧
      r.upper_bound = r.q3 + 3/2 * r.iqr ∧
      (∀ x : ℚ, x ∈ r.outliers ↔
        x ∈ r.marks ∧ (x < r.lower_bound ∨ x > r.upper_bound)) ∧
      (∀ x : ℚ, x ∈ r.marks → (x = r.lower_bound ∨ x = r.upper_bound) →
        x ∉ r.outliers) ∧
      r.outlier_count = r.outliers.length ∧
      r.outlier_percentage = (r.outliers.length : ℚ) / (r.marks.length : ℚ) * 100 := by
  intro marks r h
  unfold ExamAnalyzer.analyze at h
  by_cases h1 : marks = []
  · rw [if_pos h1] at h
    cases h
  rw [if_neg h1] at h
  by_cases h2 : marks.filterMap id = []
  · rw [if_pos h2] at h
    cases h
  rw [if_neg h2] at h
  injection h with h
  subst h
  have hq : ExamAnalyzer.percentile (marks.filterMap id) 25 ≤
      ExamAnalyzer.percentile (marks.filterMap id) 75 :=
    ExamAnalyzer.percentile_mono _ h2 25 75 (by norm_num) (by norm_num) (by norm_num)
  refine ⟨?_, ?_, ?_, ?_, rfl, rfl⟩
  · show ExamAnalyzer.lowerBound (marks.filterMap id) = _
    unfold ExamAnalyzer.lowerBound
    rfl
  · show ExamAnalyzer.upperBound (marks.filterMap id) = _
    unfold ExamAnalyzer.upperBound
    rfl
  · intro x
    show x ∈ ExamAnalyzer.outlierList (marks.filterMap id) ↔
      x ∈ marks.filterMap id ∧
        (x < ExamAnalyzer.lowerBound (marks.filterMap id) ∨
          x > ExamAnalyzer.upperBound (marks.filterMap id))
    unfold ExamAnalyzer.outlierList
    simp only [List.mem_filter, decide_eq_true_eq]
  · intro x hx hbound
    show x ∉ ExamAnalyzer.outlierList (marks.filterMap id)
    unfold ExamAnalyzer.outlierList
    simp only [List.mem_filter, decide_eq_true_eq, not_and, not_or]
    intro _
    have hLU : ExamAnalyzer.lowerBound (marks.filterMap id) ≤
        ExamAnalyzer.upperBound (marks.filterMap id) := by
      unfold ExamAnalyzer.lowerBound ExamAnalyzer.upperBound
      linarith
    rcases hbound with rfl | rfl
    · constructor
      · exact lt_irrefl _
      · exact not_lt.mpr hLU
    · constructor
      · exact not_lt.mpr hLU
      · exact lt_irrefl _

/-- Witness for C4 at a concrete input: in `[1, 2, 3, 4, 100]` the value
`100` is reported as an outlier exactly because it is strictly above the
upper fence. -/
theorem claim4_witness :
    (100 : ℚ) ∈ (ExamAnalyzer.analyzeStats [1, 2, 3, 4, 100]).outliers ↔
      ((100 : ℚ) ∈ (ExamAnalyzer.analyzeStats [1, 2, 3, 4, 100]).marks ∧
        ((100 : ℚ) < (ExamAnalyzer.analyzeStats [1, 2, 3, 4, 100]).lower_bound ∨
          (100 : ℚ) > (ExamAnalyzer.analyzeStats [1, 2, 3, 4, 100]).upper_bound)) :=
  (claim4_outlier_fence [some 1, some 2, some 3, some 4, some 100]
    (ExamAnalyzer.analyzeStats [1, 2, 3, 4, 100]) rfl).2.2.1 100

/-- C8: every successful analysis satisfies `min ≤ median ≤ max` and
`q1 ≤ median ≤ q3` under the linear-interpolation percentile method. -/
theorem claim8_median_between :
    ∀ (marks : List (Option ℚ)) (r : ExamAnalyzer.Stats),
      ExamAnalyzer.analyze marks = Except.ok r →
      r.min ≤ r.median ∧ r.median ≤ r.max ∧ r.q1 ≤ r.median ∧ r.median ≤ r.q3 := by
  intro marks r h
  unfold ExamAnalyzer.analyze at h
  by_cases h1 : marks = []
  · rw [if_pos h1] at h
    cases h
  rw [if_neg h1] at h
  by_cases h2 : marks.filterMap id = []
  · rw [if_pos h2] at h
    cases h
  rw [if_neg h2] at h
  injection h with h
  subst h
  have hmm := ExamAnalyzer.percentile_between_min_max (marks.filterMap id) h2 50
    (by norm_num) (by norm_num)
  refine ⟨hmm.1, hmm.2, ?_, ?_⟩
  · exact ExamAnalyzer.percentile_mono _ h2 25 50 (by norm_num) (by norm_num) (by norm_num)
  · exact ExamAnalyzer.percentile_mono _ h2 50 75 (by norm_num) (by norm_num) (by norm_num)

/-- Witness for C8 at a concrete input. -/
theorem claim8_witness :
    (ExamAnalyzer.analyzeStats [3, 1, 2]).min ≤
      (ExamAnalyzer.analyzeStats [3, 1, 2]).median ∧
    (ExamAnalyzer.analyzeStats [3, 1, 2]).median ≤
      (ExamAnalyzer.analyzeStats [3, 1, 2]).max ∧
    (ExamAnalyzer.analyzeStats [3, 1, 2]).q1 ≤
      (ExamAnalyzer.analyzeStats [3, 1, 2]).median ∧
    (ExamAnalyzer.analyzeStats [3, 1, 2]).median ≤
      (ExamAnalyzer.analyzeStats [3, 1, 2]).q3 :=
  claim8_median_between [some 3, some 1, some 2]
    (ExamAnalyzer.analyzeStats [3, 1, 2]) rfl

/-- C9 counterexample: on `[0, 0, 0, 1]` the code's kurtosis (scipy default,
biased population estimator) is `−2/3`, while the bias-corrected sample
estimator the claim prescribes gives `4`; likewise the squared skewness is
`4/3` (biased) versus `4` (bias-corrected). -/
theorem claim9_counterexample :
    ExamAnalyzer.analyze [some 0, some 0, some 0, some 1] =
      Except.ok (ExamAnalyzer.analyzeStats [0, 0, 0, 1]) ∧
    (ExamAnalyzer.analyzeStats [0, 0, 0, 1]).kurtosis = -2/3 ∧
    ExamAnalyzer.kurtosisCorrected [0, 0, 0, 1] = 4 ∧
    ExamAnalyzer.skewnessSqBiased [0, 0, 0, 1] = 4/3 ∧
    ExamAnalyzer.skewnessSqCorrected [0, 0, 0, 1] = 4 ∧
    ((-2 : ℚ)/3 ≠ 4) := by
  refine ⟨rfl, ?_, ?_, ?_, ?_, by norm_num⟩
  · show ExamAnalyzer.centralMoment [0, 0, 0, 1] 4 /
        (ExamAnalyzer.centralMoment [0, 0, 0, 1] 2) ^ 2 - 3 = -2/3
    norm_num [ExamAnalyzer.centralMoment, ExamAnalyzer.mean]
  · norm_num [ExamAnalyzer.kurtosisCorrected, ExamAnalyzer.centralMoment,
      ExamAnalyzer.mean]
  · norm_num [ExamAnalyzer.skewnessSqBiased, ExamAnalyzer.centralMoment,
      ExamAnalyzer.mean]
  · norm_num [ExamAnalyzer.skewnessSqCorrected, ExamAnalyzer.skewnessSqBiased,
      ExamAnalyzer.centralMoment, ExamAnalyzer.mean]

/-- C9 amended: the `kurtosis` field of every successful analysis is the
biased population excess kurtosis `m4/m2² − 3` (the scipy default
`bias=True`), not the bias-corrected sample estimator, which relates to it
by `G2 = (n−1)/((n−2)(n−3)) · ((n+1)·g2 + 6)`. -/
theorem claim9_biased_moments :
    ∀ (marks : List (Option ℚ)) (r : ExamAnalyzer.Stats),
      ExamAnalyzer.analyze marks = Except.ok r →
      r.kurtosis = ExamAnalyzer.centralMoment r.marks 4 /
          (ExamAnalyzer.centralMoment r.marks 2) ^ 2 - 3 ∧
      ExamAnalyzer.kurtosisCorrected r.marks =
        ((r.count : ℚ) - 1) / (((r.count : ℚ) - 2) * ((r.count : ℚ) - 3)) *
          (((r.count : ℚ) + 1) * r.kurtosis + 6) := by
  intro marks r h
  unfold ExamAnalyzer.analyze at h
  by_cases h1 : marks = []
  · rw [if_pos h1] at h
    cases h
  rw [if_neg h1] at h
  by_cases h2 : marks.filterMap id = []
  · rw [if_pos h2] at h
    cases h
  rw [if_neg h2] at h
  injection h with h
  subst h
  exact ⟨rfl, rfl⟩

/-- Witness for C9 at a concrete input. -/
theorem claim9_witness :
    ExamAnalyzer.kurtosisCorrected (ExamAnalyzer.analyzeStats [0, 0, 0, 1]).marks =
      (((ExamAnalyzer.analyzeStats [0, 0, 0, 1]).count : ℚ) - 1) /
        ((((ExamAnalyzer.analyzeStats [0, 0, 0, 1]).count : ℚ) - 2) *
          (((ExamAnalyzer.analyzeStats [0, 0, 0, 1]).count : ℚ) - 3)) *
        ((((ExamAnalyzer.analyzeStats [0, 0, 0, 1]).count : ℚ) + 1) *
          (ExamAnalyzer.analyzeStats [0, 0, 0, 1]).kurtosis + 6) :=
  (claim9_biased_moments [some 0, some 0, some 0, some 1]
    (ExamAnalyzer.analyzeStats [0, 0, 0, 1]) rfl).2

/-- C10: `calculate_grade_distribution` on an empty marks list fails with a
`ZeroDivisionError` (the per-grade percentage divides by `len(marks)`); it
neither returns an empty distribution nor raises an empty-input error, and
on any non-empty input it succeeds with the counts and percentages. -/
theorem claim10_grade_distribution_zero_div :
    (∀ maxm : ℚ, ExamAnalyzer.calculate_grade_distribution [] maxm =
      Except.error "ZeroDivisionError: division by zero") ∧
    (∀ (marks : List ℚ) (maxm : ℚ), marks ≠ [] →
      ExamAnalyzer.calculate_grade_distribution marks maxm =
        Except.ok (ExamAnalyzer.gradesOf marks maxm,
          ExamAnalyzer.percentagesOf marks maxm)) := by
  constructor
  · intro maxm
    rfl
  · intro marks maxm h
    unfold ExamAnalyzer.calculate_grade_distribution
    rw [if_neg (by simpa using h)]

/-- Witness for C10 at a concrete input. -/
theorem claim10_witness :
    ExamAnalyzer.calculate_grade_distribution [50] 100 =
      Except.ok (ExamAnalyzer.gradesOf [50] 100,
        ExamAnalyzer.percentagesOf [50] 100) :=
  claim10_grade_distribution_zero_div.2 [50] 100 (by decide)

end ExamScore
